import Mathlib

/-!
Verification of the karp password-retrieval client's protocol-manager layer.

The Rust sources are shallowly embedded: pure functions become Lean functions,
the stateful dispatch loops become explicit step functions folded over event
lists, machine bytes become `Nat` values with explicit bounds, and fallible
operations return `Except`.  External crates (SHA-1, SHA-256, AES-CBC,
crypto_box, serde_json) are not part of the repository; they enter the
embedding as explicit function parameters, constrained only by the documented
semantics the repository relies on.
-/

set_option maxRecDepth 40000

namespace Karp

/-! ## Byte-sequence helpers

Bytes are modelled as `Nat` values; byte strings as `List Nat`. -/

/-- Little-endian interpretation of a byte sequence as a natural number
(as in `crypto_bigint::U192::from_le_slice` and `BigUint::from_bytes_le`). -/
def leBytesToNat : List Nat → Nat
  | [] => 0
  | b :: bs => b + 256 * leBytesToNat bs

/-- Render a natural number as `width` little-endian bytes
(as in `to_le_bytes`); values at or above `256 ^ width` wrap. -/
def natToLeBytes : Nat → Nat → List Nat
  | 0, _ => []
  | width + 1, v => v % 256 :: natToLeBytes width (v / 256)

/-- Big-endian interpretation of a byte sequence as a natural number
(as in `BigInt::from_bytes_be` with positive sign). -/
def beBytesToNat (l : List Nat) : Nat :=
  l.foldl (fun acc b => acc * 256 + b) 0

/-- Model of `subtle::ConstantTimeEq::ct_eq` on byte sequences: the comparison
visits every element with no early exit; the result is true exactly when the
sequences agree elementwise and in length. -/
def ctEq (a b : List Nat) : Bool :=
  decide (a.length = b.length) &&
    (List.zipWith (fun x y => decide (x = y)) a b).all (fun c => c)

theorem natToLeBytes_length (w v : Nat) : (natToLeBytes w v).length = w := by
  induction w generalizing v with
  | zero => rfl
  | succ w ih => simp [natToLeBytes, ih]

theorem leBytesToNat_natToLeBytes (w v : Nat) :
    leBytesToNat (natToLeBytes w v) = v % 256 ^ w := by
  induction w generalizing v with
  | zero => simp [natToLeBytes, leBytesToNat, Nat.mod_one]
  | succ w ih =>
      simp only [natToLeBytes, leBytesToNat, ih]
      rw [pow_succ, mul_comm (256 ^ w) 256, Nat.mod_mul]

theorem natToLeBytes_mod (w v : Nat) :
    natToLeBytes w (v % 256 ^ w) = natToLeBytes w v := by
  induction w generalizing v with
  | zero => rfl
  | succ w ih =>
      simp only [natToLeBytes, pow_succ']
      rw [Nat.mod_mod_of_dvd v (dvd_mul_right 256 (256 ^ w)),
        Nat.mod_mul_right_div_self, ih]

theorem ctEq_eq_true_iff (a b : List Nat) : ctEq a b = true ↔ a = b := by
  induction a generalizing b with
  | nil =>
      cases b with
      | nil => simp [ctEq]
      | cons y ys => simp [ctEq]
  | cons x xs ih =>
      cases b with
      | nil => simp [ctEq]
      | cons y ys =>
          simp only [ctEq, List.length_cons, List.zipWith_cons_cons, List.all_cons,
            Bool.and_eq_true, decide_eq_true_eq, List.cons.injEq] at *
          constructor
          · rintro ⟨hlen, hx, hall⟩
            exact ⟨hx, (ih ys).mp ⟨by omega, hall⟩⟩
          · rintro ⟨hx, hxs⟩
            have := (ih ys).mpr hxs
            simp only [Bool.and_eq_true, decide_eq_true_eq] at this
            exact ⟨by omega, hx, this.2⟩

theorem ctEq_self (a : List Nat) : ctEq a a = true :=
  (ctEq_eq_true_iff a a).mpr rfl

/-! ## C8 — KeePassXC nonce arithmetic

`increment_nonce` in `src/keepassxc/model/mod.rs` reads the 24-byte nonce as a
little-endian `U192`, adds one with wraparound, and serializes the sum back to
24 little-endian bytes. -/

/-- `increment_nonce` from `src/keepassxc/model/mod.rs`. -/
def increment_nonce (nonce : List Nat) : List Nat :=
  natToLeBytes 24 ((leBytesToNat nonce + 1) % 2 ^ 192)

/-- Claim C8: the expected reply nonce computed for a sent request equals the
request nonce plus one, interpreted as a little-endian 192-bit integer modulo
`2 ^ 192`; in particular the all-ones nonce wraps to all zeros. -/
theorem increment_nonce_spec (n : List Nat) :
    leBytesToNat (increment_nonce n) = (leBytesToNat n + 1) % 2 ^ 192 ∧
    increment_nonce (List.replicate 24 255) = List.replicate 24 0 := by
  constructor
  · rw [increment_nonce, leBytesToNat_natToLeBytes]
    have h256 : (256 : Nat) ^ 24 = 2 ^ 192 := by norm_num
    rw [h256]
    exact Nat.mod_mod_of_dvd _ dvd_rfl
  · decide

/-! ## C6 / C10 — the bound session store (KeePassRPC)

`BoundStorage` in `src/keepass/manager.rs` wraps an arbitrary `Storage`
implementation and asserts identifier stability.  The delegate store is
abstract; its observable behaviour at one call is the value it yields, so
`boundGet` takes that yield as an argument and `boundUpdate`/`boundClear`
return the store contents produced when the delegate is reached. -/

/-- `session::Data` for KeePassRPC (`src/keepass/session.rs`): a UUID
identifier (16 bytes, modelled as a byte list) and an optional session key
(an abstract 32-byte hash value, modelled as a `Nat`). -/
structure SessionData where
  identifier : List Nat
  session_key : Option Nat
deriving DecidableEq, Repr

/-- Storage-layer errors surfaced by the bound store. -/
inductive StorageError
  | conflict
deriving DecidableEq, Repr

/-- `BoundStorage::get`: a delegate yield whose identifier differs (under the
constant-time byte comparison) from the bound identifier is rejected with
`Storage::Conflict`. -/
def boundGet (identifier : List Nat) (delegateYield : Option SessionData) :
    Except StorageError (Option SessionData) :=
  match delegateYield with
  | some sessionData =>
      if ctEq sessionData.identifier identifier then Except.ok (some sessionData)
      else Except.error StorageError.conflict
  | none => Except.ok none

/-- `BoundStorage::update`: data carrying a different identifier is rejected
with `Storage::Conflict` before the delegate is reached; otherwise the write
is forwarded unchanged (the result carries the new delegate contents). -/
def boundUpdate (identifier : List Nat) (store : Option SessionData)
    (data : SessionData) : Except StorageError (Option SessionData) :=
  if ctEq data.identifier identifier then Except.ok (some data)
  else Except.error StorageError.conflict

/-- `BoundStorage::clear`: delegates unconditionally, with no identifier
check (the result carries the new delegate contents). -/
def boundClear (identifier : List Nat) (store : Option SessionData) :
    Except StorageError (Option SessionData) :=
  Except.ok none

/-- Claim C6: once a session is bound to identifier `A`, a get whose
underlying store yields data with identifier `B ≠ A` returns
`Storage::Conflict` rather than that data, and an update carrying identifier
`B ≠ A` returns `Storage::Conflict` without reaching the underlying store;
the identifier comparison (`ctEq`) is the constant-time full-traversal
comparison, whose functional content is byte equality. -/
theorem bound_storage_identifier_guard (A B : List Nat) (k k' : Option Nat)
    (store : Option SessionData) (hne : B ≠ A) :
    boundGet A (some ⟨B, k⟩) = Except.error StorageError.conflict ∧
    boundUpdate A store ⟨B, k'⟩ = Except.error StorageError.conflict ∧
    (ctEq B A = true ↔ B = A) := by
  have hfalse : ctEq B A = false := by
    cases h : ctEq B A with
    | false => rfl
    | true => exact absurd ((ctEq_eq_true_iff B A).mp h) hne
  refine ⟨?_, ?_, ctEq_eq_true_iff B A⟩
  · simp [boundGet, hfalse]
  · simp [boundUpdate, hfalse]

/-- Witness for C6 at concrete identifiers. -/
theorem bound_storage_identifier_guard_witness :
    ([1, 2] : List Nat) ≠ [1, 3] ∧
    boundGet [1, 3] (some ⟨[1, 2], none⟩) = Except.error StorageError.conflict :=
  ⟨by decide, (bound_storage_identifier_guard [1, 3] [1, 2] none none none (by decide)).1⟩

/-- Claim C10: `BoundStorage::clear` bypasses the identifier check: for every
bound identifier and every delegate content, it delegates unconditionally and
never returns `Storage::Conflict`, unlike the guarded `boundGet` and
`boundUpdate`. -/
theorem bound_storage_clear_unguarded (identifier : List Nat)
    (store : Option SessionData) :
    boundClear identifier store = Except.ok none ∧
    ∀ e, boundClear identifier store ≠ Except.error e := by
  exact ⟨rfl, fun e h => by simpa [boundClear] using h⟩

/-- Witness for C10 at a concrete identifier and delegate content. -/
theorem bound_storage_clear_unguarded_witness :
    boundClear [7] (some ⟨[9], none⟩) = Except.ok none :=
  (bound_storage_clear_unguarded [7] (some ⟨[9], none⟩)).1

/-! ## C9 — KeePassXC `Client::get_entry` (`src/keepassxc/mod.rs`)

The call pipeline (channel, encryption) is orthogonal here; `get_entry` is a
pure function of the group path, the entry title, and the outcome of the
`get-logins` call, which we take as an argument. -/

/-- KeePassXC wire error codes (`src/keepassxc/model/mod.rs`). -/
inductive XcErrorCode
  | unknownError
  | databaseNotOpened
  | databaseHashNotReceived
  | clientPublicKeyNotReceived
  | cannotDecryptMessage
  | timeoutOrNotConnected
  | actionCancelledOrDenied
  | publicKeyNotFound
  | associationFailed
  | keyChangeFailed
  | encryptionKeyUnrecognized
  | noSavedDatabasesFound
  | incorrectAction
  | emptyMessageReceived
  | noUrlProvided
  | noLoginsFound
  | noGroupsFound
  | cannotCreateNewGroup
  | noValidUuidProvided
  | accessToAllEntriesDenied
  | otherCode
deriving DecidableEq, Repr

/-- A KeePassXC login entry as deserialized from `get-logins`
(`src/keepassxc/api.rs`; secret and display-only fields kept as strings). -/
structure XcEntry where
  login : String
  name : String
  password : String
  uuid : String
  group : String
deriving DecidableEq, Repr

/-- `GetLoginsResponse` (`src/keepassxc/api.rs`). -/
structure GetLoginsResponse where
  count : Nat
  entries : List XcEntry
deriving DecidableEq, Repr

/-- The common client-facade form-field shape (`src/client.rs`). -/
inductive ClientFormFieldType
  | username
  | password
  | text
  | select
  | radio
  | checkbox
deriving DecidableEq, Repr

/-- A form field of the common `Entry` shape. -/
structure ClientFormField where
  fieldType : ClientFormFieldType
  display_name : String
  value : String
deriving DecidableEq, Repr

/-- The common `Entry` shape produced by both dialects (`src/client.rs`);
`parent` carries the group path when present. -/
structure ClientEntry where
  id : String
  parent : Option String
  title : String
  form_fields : List ClientFormField
deriving DecidableEq, Repr

/-- `From<Entry> for client::Entry` (`src/keepassxc/api.rs`): a fixed
username/password form-field pair, with the parent group present only when
the group path is nonempty. -/
def xcEntryToClient (e : XcEntry) : ClientEntry :=
  { id := e.uuid
    parent := if e.group.isEmpty then none else some e.group
    title := e.name
    form_fields :=
      [ { fieldType := ClientFormFieldType.username
          display_name := "KeePass username"
          value := e.login }
      , { fieldType := ClientFormFieldType.password
          display_name := "KeePass password"
          value := e.password } ] }

/-- Errors observable from `get_entry` (the subset of the crate error type the
function inspects or produces; all other errors pass through opaquely). -/
inductive KarpError
  | entryNotFound (parentPath : String) (name : String)
  | xcServerError (code : XcErrorCode) (text : String)
  | opaqueError (tag : Nat)
deriving DecidableEq, Repr

/-- `Client::get_entry` for KeePassXC (`src/keepassxc/mod.rs`), as a function
of the `get-logins` outcome: the url is built from the '/'-joined path, a
`NoLoginsFound` server error becomes `EntryNotFound`, and a successful reply
yields the first entry of the list or `EntryNotFound` when the list is
empty. -/
def get_entry (groupNames : List String) (entryTitle : String)
    (resp : Except KarpError GetLoginsResponse) : Except KarpError ClientEntry :=
  let path := groupNames ++ [entryTitle]
  let parentPath := String.intercalate "/" path.dropLast
  match resp with
  | Except.error err =>
      match err with
      | KarpError.xcServerError code text =>
          if code = XcErrorCode.noLoginsFound then
            Except.error (KarpError.entryNotFound parentPath entryTitle)
          else Except.error (KarpError.xcServerError code text)
      | e => Except.error e
  | Except.ok r =>
      match r.entries with
      | [] => Except.error (KarpError.entryNotFound parentPath entryTitle)
      | e :: _ => Except.ok (xcEntryToClient e)

/-- Claim C9: when the `get-logins` call succeeds, the returned entry is the
first element of the server's entry list; a successful reply with an empty
entry list also yields `EntryNotFound` with parent path the '/'-joined group
names, so `EntryNotFound` is not produced solely by the `NoLoginsFound`
server error. -/
theorem get_entry_first_and_empty (groups : List String) (title : String)
    (c c' : Nat) (e : XcEntry) (rest : List XcEntry) (text : String) :
    get_entry groups title (Except.ok ⟨c, e :: rest⟩) =
      Except.ok (xcEntryToClient e) ∧
    get_entry groups title (Except.ok ⟨c', []⟩) =
      Except.error
        (KarpError.entryNotFound (String.intercalate "/" groups) title) ∧
    get_entry groups title
        (Except.error (KarpError.xcServerError XcErrorCode.noLoginsFound text)) =
      Except.error
        (KarpError.entryNotFound (String.intercalate "/" groups) title) := by
  have hdrop : (groups ++ [title]).dropLast = groups := by
    simp
  refine ⟨rfl, ?_, ?_⟩
  · simp [get_entry, hdrop]
  · simp [get_entry, hdrop]

/-- Witness for C9 at a concrete group path, title, and response. -/
theorem get_entry_first_and_empty_witness :
    get_entry ["g1", "g2"] "title" (Except.ok ⟨1, [⟨"u", "t", "p", "id", "g"⟩]⟩) =
      Except.ok (xcEntryToClient ⟨"u", "t", "p", "id", "g"⟩) :=
  (get_entry_first_and_empty ["g1", "g2"] "title" 1 0 ⟨"u", "t", "p", "id", "g"⟩ [] "x").1

/-- Witness for C8 at a concrete nonce. -/
theorem increment_nonce_spec_witness :
    leBytesToNat (increment_nonce (List.replicate 24 0)) =
      (leBytesToNat (List.replicate 24 0) + 1) % 2 ^ 192 :=
  (increment_nonce_spec (List.replicate 24 0)).1

/-! ## Hex renderings (`src/model/key_material.rs`, `src/keepass/model/hash.rs`)

`KeyMaterial<N>` serializes as the uppercase hex of its integer value with no
padding (`BigInt::to_str_radix(16)` uppercased); `Hash` serializes with
`format!("{:064x}", ...)`: lowercase, zero-padded to at least 64 digits.  The
digit recursions are fuelled with the input value itself, which always
dominates the digit count, so they are exact. -/

/-- One lowercase hex digit (codes: digits from 48, letters from 87 + 10). -/
def hexDigitLower (d : Nat) : Char :=
  if d < 10 then Char.ofNat (48 + d) else Char.ofNat (87 + d)

/-- One uppercase hex digit (codes: digits from 48, letters from 55 + 10). -/
def hexDigitUpper (d : Nat) : Char :=
  if d < 10 then Char.ofNat (48 + d) else Char.ofNat (55 + d)

/-- Most-significant-first hex digits of `n`, with enough fuel. -/
def hexDigitsAux (digit : Nat → Char) : Nat → Nat → List Char
  | 0, _ => []
  | fuel + 1, n => if n = 0 then [] else hexDigitsAux digit fuel (n / 16) ++ [digit (n % 16)]

/-- `BigInt::to_str_radix(16)`: lowercase hex, no padding, and `"0"` for 0. -/
def hexLower (n : Nat) : List Char :=
  if n = 0 then ['0'] else hexDigitsAux hexDigitLower n n

/-- The uppercase rendering used by `KeyMaterial<N>`. -/
def hexUpper (n : Nat) : List Char :=
  if n = 0 then ['0'] else hexDigitsAux hexDigitUpper n n

/-- `format!("{:064x}", value)`: lowercase hex zero-padded to at least 64
digits, as produced by `String::from(&Hash)`. -/
def hex064 (n : Nat) : List Char :=
  List.replicate (64 - (hexLower n).length) '0' ++ hexLower n

/-! ## Modular exponentiation (`num_bigint::BigInt::modpow`)

The external primitive's documented semantics: `base ^ exponent` reduced with
the floor modulus, which for our positive moduli is `Int.emod`. -/

/-- Iterated integer multiplication. -/
def ipow (base : Int) : Nat → Int
  | 0 => 1
  | e + 1 => ipow base e * base

theorem ipow_eq (base : Int) (e : Nat) : ipow base e = base ^ e := by
  induction e with
  | zero => rfl
  | succ e ih => rw [ipow, ih, pow_succ]

/-- `BigInt::modpow` (floor modulus; all moduli in this development are
positive, where floor modulus and `Int.emod` agree). -/
def modpow (base : Int) (e : Nat) (n : Int) : Int := ipow base e % n

theorem modpow_eq (base : Int) (e : Nat) (n : Int) : modpow base e n = base ^ e % n := by
  rw [modpow, ipow_eq]

/-! ## C3 — the SRP-6a exchange (`src/keepass/srp.rs`)

The SHA-256 primitive is abstracted as `sha256 : List Char → Nat`, standing
for the digest of a string interpreted big-endian as an integer (the composite
of the `sha2` crate with the `Hash → BigInt` conversion in `hash.rs`, which
reverses the digest to little-endian storage and reads it back).  SHA-1 enters
only through the multiplier `k`; the computation binds it through `srpK`. -/

/-- The 512-bit safe prime `PARAM_N`, big-endian bytes verbatim from
`src/keepass/srp.rs`. -/
def srpNBytes : List Nat :=
  [212, 199, 248, 162, 179, 44, 17, 184, 251, 169, 88, 30, 196, 186, 79, 27, 4, 33, 86,
   66, 239, 115, 85, 227, 124, 15, 192, 68, 62, 247, 86, 234, 44, 107, 142, 235, 117, 90,
   28, 114, 48, 39, 102, 60, 170, 38, 94, 247, 133, 184, 255, 106, 155, 53, 34, 122, 82,
   216, 102, 51, 219, 223, 202, 67]

/-- The SRP modulus `N`. -/
def srpN : Int := Int.ofNat (beBytesToNat srpNBytes)

/-- The SRP generator `g = 2`. -/
def srpG : Int := 2

/-- The generator padded little-endian to the 64-byte width of `N` and then
reversed, as built in the `PARAM_K` initializer. -/
def srpGPadBytes : List Nat := List.replicate 63 0 ++ [2]

/-- `PARAM_K = SHA1(N_be ‖ pad(g, |N|))` interpreted big-endian, with the
SHA-1 primitive abstract. -/
def srpK (sha1 : List Nat → List Nat) : Int :=
  Int.ofNat (beBytesToNat (sha1 (srpNBytes ++ srpGPadBytes)))

/-- The `Computed` SRP state (`src/keepass/srp.rs`): client evidence `M_c`,
expected server evidence `M_s`, and the shared secret `K`. -/
structure SrpComputed where
  my_evidence : Nat
  their_evidence : Nat
  session_key : Int
deriving DecidableEq, Repr

/-- `Protocol::<Init>::compute` (`src/keepass/srp.rs`).  `a` is the 32-byte
private key chosen in `into_protocol`, so the stored public key is
`A = g^a mod N`; `B` is the server public key received on the wire.  All hash
inputs are the hex string renderings the source hashes:
`u = SHA256(hex(A)‖hex(B))`, `x = SHA256(salt‖password)`,
`K = (B − k·g^x)^(a + u·x) mod N`, `M_c = SHA256(hex(A)‖hex(B)‖hex(K))`,
`M_s = SHA256(hex(A)‖hex064(M_c)‖hex(K))`. -/
def srpCompute (sha256 : List Char → Nat) (k : Int) (a : Nat) (B : Nat)
    (salt password : List Char) : SrpComputed :=
  let A : Int := modpow srpG a srpN
  let myPub : List Char := hexUpper A.toNat
  let theirPub : List Char := hexUpper B
  let u : Nat := sha256 (myPub ++ theirPub)
  let x : Nat := sha256 (salt ++ password)
  let K : Int := modpow ((B : Int) - k * modpow srpG x srpN) (a + u * x) srpN
  let Kstr : List Char := hexUpper K.toNat
  let Mc : Nat := sha256 (myPub ++ theirPub ++ Kstr)
  let Ms : Nat := sha256 (myPub ++ hex064 Mc ++ Kstr)
  { my_evidence := Mc, their_evidence := Ms, session_key := K }

/-- Failures of `Protocol::<Computed>::authenticate`. -/
inductive SrpFailure
  | serverProofMismatch
deriving DecidableEq, Repr

/-- The 32 little-endian bytes stored by `Hash` for a digest value. -/
def hashBytes (h : Nat) : List Nat := natToLeBytes 32 h

/-- `Hash` equality (`src/keepass/model/hash.rs`): `subtle` constant-time
comparison of the 32 stored bytes. -/
def hashEq (h1 h2 : Nat) : Bool := ctEq (hashBytes h1) (hashBytes h2)

/-- `Protocol::<Computed>::authenticate` (`src/keepass/srp.rs`): the received
evidence is compared against the expected `their_evidence` with the
constant-time `Hash` equality; a mismatch is `Srp::ServerProofMismatch` and on
success the session-key hash `SHA256(hex(K))` is derived. -/
def srpAuthenticate (sha256 : List Char → Nat) (c : SrpComputed)
    (received : Nat) : Except SrpFailure Nat :=
  if hashEq c.their_evidence received then
    Except.ok (sha256 (hexUpper c.session_key.toNat))
  else Except.error SrpFailure.serverProofMismatch

/-- Modelled from the spec: the SRP-6a server (the KeePassRPC plugin — not
part of this repository) holding the verifier `v = g^x mod N` derived from
`(salt, password)` chooses an ephemeral secret `b` and sends
`B = (k·v + g^b) mod N`. -/
def srpServerB (sha256 : List Char → Nat) (k : Int) (b : Nat)
    (salt password : List Char) : Int :=
  (k * modpow srpG (sha256 (salt ++ password)) srpN + modpow srpG b srpN) % srpN

/-- Modelled from the spec: the server's shared secret
`K = (A·v^u)^b mod N`, with `u = SHA256(hex(A)‖hex(B))` as on the client. -/
def srpServerK (sha256 : List Char → Nat) (k : Int) (b : Nat)
    (salt password : List Char) (A : Int) : Int :=
  let x := sha256 (salt ++ password)
  let v := modpow srpG x srpN
  let B := srpServerB sha256 k b salt password
  let u := sha256 (hexUpper A.toNat ++ hexUpper B.toNat)
  modpow (A * modpow v u srpN) b srpN

/-- Modelled from the spec: the server's client-evidence value
`M_c = SHA256(hex(A)‖hex(B)‖hex(K))`. -/
def srpServerMc (sha256 : List Char → Nat) (k : Int) (b : Nat)
    (salt password : List Char) (A : Int) : Nat :=
  sha256 (hexUpper A.toNat ++ hexUpper (srpServerB sha256 k b salt password).toNat ++
    hexUpper (srpServerK sha256 k b salt password A).toNat)

/-- Modelled from the spec: the server's evidence
`M_s = SHA256(hex(A)‖hex064(M_c)‖hex(K))`. -/
def srpServerMs (sha256 : List Char → Nat) (k : Int) (b : Nat)
    (salt password : List Char) (A : Int) : Nat :=
  sha256 (hexUpper A.toNat ++ hex064 (srpServerMc sha256 k b salt password A) ++
    hexUpper (srpServerK sha256 k b salt password A).toNat)

theorem hashEq_self (h : Nat) : hashEq h h = true := ctEq_self _

theorem hashEq_eq_true_iff (h1 h2 : Nat) :
    hashEq h1 h2 = true ↔ h1 % 2 ^ 256 = h2 % 2 ^ 256 := by
  have h2pow : (256 : Nat) ^ 32 = 2 ^ 256 := by norm_num
  rw [hashEq, ctEq_eq_true_iff]
  constructor
  · intro h
    have := congrArg leBytesToNat h
    simpa [hashBytes, leBytesToNat_natToLeBytes, h2pow] using this
  · intro h
    have hmodeq : h1 % 256 ^ 32 = h2 % 256 ^ 32 := by rw [h2pow]; exact h
    have hmod := congrArg (natToLeBytes 32) hmodeq
    rw [natToLeBytes_mod, natToLeBytes_mod] at hmod
    simpa [hashBytes] using hmod

/-- The modular-arithmetic heart of the SRP round trip:
`(B − k·g^x)^(a + u·x) ≡ (A·(v^u mod N))^b (mod N)` when
`B = (k·v + g^b) mod N`, `v = g^x mod N` and `A = g^a mod N`. -/
theorem srp_key_core (N k g : Int) (a b x u : Nat) :
    modpow (((k * modpow g x N + modpow g b N) % N) - k * modpow g x N) (a + u * x) N =
      modpow (modpow g a N * modpow (modpow g x N) u N) b N := by
  simp only [modpow_eq]
  have hmod : ∀ y : Int, y % N ≡ y [ZMOD N] := fun y => Int.emod_emod_of_dvd y dvd_rfl
  have hbase : ((k * (g ^ x % N) + g ^ b % N) % N) - k * (g ^ x % N) ≡ g ^ b [ZMOD N] := by
    calc ((k * (g ^ x % N) + g ^ b % N) % N) - k * (g ^ x % N)
        ≡ (k * (g ^ x % N) + g ^ b % N) - k * (g ^ x % N) [ZMOD N] :=
          (hmod _).sub_right _
      _ = g ^ b % N := by ring
      _ ≡ g ^ b [ZMOD N] := hmod _
  have hlhs : (((k * (g ^ x % N) + g ^ b % N) % N) - k * (g ^ x % N)) ^ (a + u * x) ≡
      g ^ (b * (a + u * x)) [ZMOD N] := by
    calc (((k * (g ^ x % N) + g ^ b % N) % N) - k * (g ^ x % N)) ^ (a + u * x)
        ≡ (g ^ b) ^ (a + u * x) [ZMOD N] := hbase.pow _
      _ = g ^ (b * (a + u * x)) := by rw [← pow_mul]
  have hrhs : ((g ^ a % N) * ((g ^ x % N) ^ u % N)) ^ b ≡ g ^ (b * (a + u * x)) [ZMOD N] := by
    have hinner : (g ^ a % N) * ((g ^ x % N) ^ u % N) ≡ g ^ (a + x * u) [ZMOD N] := by
      calc (g ^ a % N) * ((g ^ x % N) ^ u % N)
          ≡ g ^ a * ((g ^ x % N) ^ u) [ZMOD N] := (hmod _).mul (hmod _)
        _ ≡ g ^ a * (g ^ x) ^ u [ZMOD N] := ((hmod (g ^ x)).pow u).mul_left _
        _ = g ^ (a + x * u) := by rw [← pow_mul, ← pow_add]
    calc ((g ^ a % N) * ((g ^ x % N) ^ u % N)) ^ b
        ≡ (g ^ (a + x * u)) ^ b [ZMOD N] := hinner.pow b
      _ = g ^ (b * (a + u * x)) := by rw [← pow_mul]; ring_nf
  exact hlhs.trans hrhs.symm

theorem srp_server_key_eq (sha256 : List Char → Nat) (k : Int) (a b : Nat)
    (salt P : List Char) :
    (srpCompute sha256 k a (srpServerB sha256 k b salt P).toNat salt P).session_key =
      srpServerK sha256 k b salt P (modpow srpG a srpN) := by
  have hBcast : ((srpServerB sha256 k b salt P).toNat : Int) = srpServerB sha256 k b salt P :=
    Int.toNat_of_nonneg (Int.emod_nonneg _ (by decide))
  simp only [srpCompute, srpServerK]
  rw [hBcast, srpServerB]
  exact srp_key_core srpN k srpG a b _ _

theorem srp_server_ms_eq (sha256 : List Char → Nat) (k : Int) (a b : Nat)
    (salt P : List Char) :
    (srpCompute sha256 k a (srpServerB sha256 k b salt P).toNat salt P).their_evidence =
      srpServerMs sha256 k b salt P (modpow srpG a srpN) := by
  have hK := srp_server_key_eq sha256 k a b salt P
  simp only [srpCompute] at hK ⊢
  rw [srpServerMs, srpServerMc, ← hK]

/-- Claim C3: a client `Protocol` running `compute` against a server holding
the verifier derived from `(salt, P)` derives the same shared secret `K` and
server evidence `M_s` as the server, so `authenticate` succeeds and returns
the session-key hash `SHA256(hex(K))`; a server proof computed from a
different password whose evidence bytes differ from the expected evidence
(the content of `P' ≠ P` under collision-resistance of SHA-256, supplied as
the hypothesis `hne`) is rejected with `Srp::ServerProofMismatch`.  The
evidence comparison is the constant-time full-traversal `hashEq`. -/
theorem srp_roundtrip_and_proof_mismatch (sha256 : List Char → Nat) (k : Int)
    (a b bBad : Nat) (salt P PBad : List Char)
    (hne : srpServerMs sha256 k bBad salt PBad (modpow srpG a srpN) % 2 ^ 256 ≠
      (srpCompute sha256 k a (srpServerB sha256 k b salt P).toNat salt P).their_evidence %
        2 ^ 256) :
    (srpCompute sha256 k a (srpServerB sha256 k b salt P).toNat salt P).session_key =
      srpServerK sha256 k b salt P (modpow srpG a srpN) ∧
    (srpCompute sha256 k a (srpServerB sha256 k b salt P).toNat salt P).their_evidence =
      srpServerMs sha256 k b salt P (modpow srpG a srpN) ∧
    srpAuthenticate sha256 (srpCompute sha256 k a (srpServerB sha256 k b salt P).toNat salt P)
        (srpServerMs sha256 k b salt P (modpow srpG a srpN)) =
      Except.ok (sha256 (hexUpper
        (srpCompute sha256 k a (srpServerB sha256 k b salt P).toNat salt P).session_key.toNat)) ∧
    srpAuthenticate sha256 (srpCompute sha256 k a (srpServerB sha256 k b salt P).toNat salt P)
        (srpServerMs sha256 k bBad salt PBad (modpow srpG a srpN)) =
      Except.error SrpFailure.serverProofMismatch := by
  refine ⟨srp_server_key_eq sha256 k a b salt P, srp_server_ms_eq sha256 k a b salt P, ?_, ?_⟩
  · rw [srpAuthenticate, ← srp_server_ms_eq sha256 k a b salt P, hashEq_self]
    simp
  · have hfalse : hashEq
        (srpCompute sha256 k a (srpServerB sha256 k b salt P).toNat salt P).their_evidence
        (srpServerMs sha256 k bBad salt PBad (modpow srpG a srpN)) = false := by
      cases h : hashEq
          (srpCompute sha256 k a (srpServerB sha256 k b salt P).toNat salt P).their_evidence
          (srpServerMs sha256 k bBad salt PBad (modpow srpG a srpN)) with
      | false => rfl
      | true => exact absurd ((hashEq_eq_true_iff _ _).mp h).symm hne
    rw [srpAuthenticate, hfalse]
    simp

/-- A concrete stand-in for the abstract SHA-256 digest used by witnesses: an
encoding fold reduced to a tiny range so that witness arithmetic is small. -/
def witSha256 (s : List Char) : Nat :=
  (s.foldl (fun acc c => acc * 2097152 + (c.toNat + 1)) 0) % 17

/-- Witness for C3 at a concrete instance (`k = 0` corresponds to the
abstract SHA-1 returning an empty digest in `srpK`). -/
theorem srp_roundtrip_and_proof_mismatch_witness :
    (srpServerMs witSha256 0 5 [] ['b'] (modpow srpG 3 srpN) % 2 ^ 256 ≠
      (srpCompute witSha256 0 3 (srpServerB witSha256 0 4 [] ['a']).toNat [] ['a']).their_evidence %
        2 ^ 256) ∧
    (srpCompute witSha256 0 3 (srpServerB witSha256 0 4 [] ['a']).toNat [] ['a']).session_key =
      srpServerK witSha256 0 4 [] ['a'] (modpow srpG 3 srpN) :=
  ⟨by decide, (srp_roundtrip_and_proof_mismatch witSha256 0 3 4 5 [] ['a'] ['b'] (by decide)).1⟩

/-! ## C4 — KeePassRPC transport framing (`src/model/encrypted_json.rs`)

The AES-256-CBC/PKCS#7 cipher and the SHA-1 digest are external crates; they
enter as parameters.  `aesEncrypt key iv plaintext` is the padded CBC
encryption, `aesDecrypt key iv ciphertext` its partial inverse (PKCS#7
unpadding can fail), `sha1` the digest, and JSON (de)serialization is a
parameter pair as well. -/

/-- `compute_mac` (`src/model/encrypted_json.rs`): SHA-1 over the SHA-1
digest of the key, then the ciphertext, then the IV. -/
def compute_mac (sha1 : List Nat → List Nat) (key payload iv : List Nat) : List Nat :=
  sha1 (sha1 key ++ payload ++ iv)

/-- The `EncryptedJson` frame: ciphertext, IV, and MAC bytes. -/
structure EncryptedJson where
  message : List Nat
  iv : List Nat
  hmac : List Nat
deriving DecidableEq, Repr

/-- Failures of `EncryptedJson::decrypt`. -/
inductive FramingError
  | messageAuthenticationFailure
  | paddingError
  | jsonError
deriving DecidableEq, Repr

/-- `EncryptedJson::encrypt`: serialize, CBC-encrypt under the random IV
(taken as an argument here; randomness is external), and MAC the ciphertext
and IV. -/
def EncryptedJson.encrypt {α : Type} (sha1 : List Nat → List Nat)
    (aesEncrypt : List Nat → List Nat → List Nat → List Nat)
    (serializeJson : α → List Nat) (key iv : List Nat) (msg : α) : EncryptedJson :=
  let plaintext := serializeJson msg
  let message := aesEncrypt key iv plaintext
  { message := message, iv := iv, hmac := compute_mac sha1 key message iv }

/-- `EncryptedJson::decrypt`: recompute the MAC over the received ciphertext
and IV and compare in constant time, failing with
`Api::MessageAuthenticationFailure` on mismatch; then CBC-decrypt and parse. -/
def EncryptedJson.decrypt {α : Type} (sha1 : List Nat → List Nat)
    (aesDecrypt : List Nat → List Nat → List Nat → Option (List Nat))
    (parseJson : List Nat → Option α) (key : List Nat) (e : EncryptedJson) :
    Except FramingError α :=
  if ctEq (compute_mac sha1 key e.message e.iv) e.hmac then
    match aesDecrypt key e.iv e.message with
    | none => Except.error FramingError.paddingError
    | some plaintext =>
        match parseJson plaintext with
        | none => Except.error FramingError.jsonError
        | some msg => Except.ok msg
  else Except.error FramingError.messageAuthenticationFailure

theorem ctEq_eq_false_of_ne {a b : List Nat} (h : a ≠ b) : ctEq a b = false := by
  cases hc : ctEq a b with
  | false => rfl
  | true => exact absurd ((ctEq_eq_true_iff a b).mp hc) h

/-- Claim C4: for every serializable value and every session key, decrypting
`encrypt key msg` with the same key returns `msg` (given the cipher inverts
and parsing inverts serialization on that value); and changing the `message`,
`iv`, or `hmac` field of the produced frame makes `decrypt` return
`Api::MessageAuthenticationFailure` (for `message`/`iv` tampering under
injectivity of the abstract SHA-1, the collision-freeness the construction
relies on). -/
theorem encrypted_json_roundtrip_and_tamper {α : Type} (sha1 : List Nat → List Nat)
    (aesEncrypt : List Nat → List Nat → List Nat → List Nat)
    (aesDecrypt : List Nat → List Nat → List Nat → Option (List Nat))
    (serializeJson : α → List Nat) (parseJson : List Nat → Option α)
    (key iv : List Nat) (msg : α)
    (haes : aesDecrypt key iv (aesEncrypt key iv (serializeJson msg)) =
      some (serializeJson msg))
    (hjson : parseJson (serializeJson msg) = some msg)
    (hsha : Function.Injective sha1) :
    EncryptedJson.decrypt sha1 aesDecrypt parseJson key
        (EncryptedJson.encrypt sha1 aesEncrypt serializeJson key iv msg) = Except.ok msg ∧
    (∀ msg2, msg2 ≠ (EncryptedJson.encrypt sha1 aesEncrypt serializeJson key iv msg).message →
      EncryptedJson.decrypt sha1 aesDecrypt parseJson key
          { EncryptedJson.encrypt sha1 aesEncrypt serializeJson key iv msg with
              message := msg2 } =
        Except.error FramingError.messageAuthenticationFailure) ∧
    (∀ iv2, iv2 ≠ iv →
      EncryptedJson.decrypt sha1 aesDecrypt parseJson key
          { EncryptedJson.encrypt sha1 aesEncrypt serializeJson key iv msg with iv := iv2 } =
        Except.error FramingError.messageAuthenticationFailure) ∧
    (∀ mac2, mac2 ≠ (EncryptedJson.encrypt sha1 aesEncrypt serializeJson key iv msg).hmac →
      EncryptedJson.decrypt sha1 aesDecrypt parseJson key
          { EncryptedJson.encrypt sha1 aesEncrypt serializeJson key iv msg with hmac := mac2 } =
        Except.error FramingError.messageAuthenticationFailure) := by
  refine ⟨?_, ?_, ?_, ?_⟩
  · simp [EncryptedJson.decrypt, EncryptedJson.encrypt, ctEq_self, haes, hjson]
  · intro msg2 hne
    have hmac : compute_mac sha1 key msg2 iv ≠
        compute_mac sha1 key (aesEncrypt key iv (serializeJson msg)) iv := by
      intro h
      have h2 := hsha h
      have h3 := List.append_cancel_right h2
      exact hne (List.append_cancel_left h3)
    simp [EncryptedJson.decrypt, EncryptedJson.encrypt, ctEq_eq_false_of_ne hmac]
  · intro iv2 hne
    have hmac : compute_mac sha1 key (aesEncrypt key iv (serializeJson msg)) iv2 ≠
        compute_mac sha1 key (aesEncrypt key iv (serializeJson msg)) iv := by
      intro h
      exact hne (List.append_cancel_left (hsha h))
    simp [EncryptedJson.decrypt, EncryptedJson.encrypt, ctEq_eq_false_of_ne hmac]
  · intro mac2 hne
    have hmac : compute_mac sha1 key (aesEncrypt key iv (serializeJson msg)) iv ≠ mac2 := by
      intro h
      exact hne h.symm
    simp [EncryptedJson.decrypt, EncryptedJson.encrypt, ctEq_eq_false_of_ne hmac]

/-- Identity stand-in for the abstract SHA-1 in witnesses. -/
def witIdBytes (l : List Nat) : List Nat := l

theorem witIdBytes_injective : Function.Injective witIdBytes := fun _ _ h => h

/-- Identity stand-in for the CBC encryption in witnesses. -/
def witAesEnc (key iv plaintext : List Nat) : List Nat := plaintext

/-- Inverse stand-in for the CBC decryption in witnesses. -/
def witAesDec (key iv ciphertext : List Nat) : Option (List Nat) := some ciphertext

/-- Singleton-list serialization stand-in for witnesses. -/
def witSerialize (n : Nat) : List Nat := [n]

/-- Head-of-list parsing stand-in for witnesses. -/
def witParse (l : List Nat) : Option Nat := l.head?

/-- Witness for C4 at a concrete key, IV, and message. -/
theorem encrypted_json_roundtrip_and_tamper_witness :
    (witAesDec [1] [2] (witAesEnc [1] [2] (witSerialize 3)) = some (witSerialize 3)) ∧
    (witParse (witSerialize 3) = some 3) ∧
    EncryptedJson.decrypt witIdBytes witAesDec witParse [1]
        (EncryptedJson.encrypt witIdBytes witAesEnc witSerialize [1] [2] 3) = Except.ok 3 :=
  ⟨rfl, rfl,
    (encrypted_json_roundtrip_and_tamper witIdBytes witAesEnc witAesDec witSerialize witParse
      [1] [2] 3 rfl rfl witIdBytes_injective).1⟩

/-! ## C5 — password rotation in the SRP phase (`src/keepass/manager.rs`)

`srp_init`/`srp_computed` form a mutually recursive interaction: `srp_init`
persists the unauthenticated `SessionData{identifier}`, sends the identify
message, receives `SrpIdentifyToClient{B, salt}`, prompts for a password
(carrying an optional error message), computes, and hands over to
`srp_computed`; `srp_computed` sends the proof, receives, and on
`Error{AuthFailed}` retries `srp_init` with the same identifier, the message
"Incorrect password.", and a fresh private key.  The interaction is embedded
as one structurally recursive interpreter over the inbound message list with
an explicit phase; prompt passwords and fresh private keys are supplied as
input lists (the external prompt and RNG). -/

deriving instance DecidableEq for Except

/-- `SecurityLevel` (`src/model/setup.rs`): `Low = 1 < Medium = 2 < High = 3`. -/
inductive SecurityLevel
  | low
  | medium
  | high
deriving DecidableEq, Repr

/-- The wire representation number, which also carries the derived order. -/
def SecurityLevel.num : SecurityLevel → Nat
  | SecurityLevel.low => 1
  | SecurityLevel.medium => 2
  | SecurityLevel.high => 3

/-- `storage_security_level` (`src/keepass/manager.rs`): `Medium` for a
persistent store, `High` for a volatile one. -/
def storageSecurityLevel (persistent : Bool) : SecurityLevel :=
  if persistent then SecurityLevel.medium else SecurityLevel.high

/-- Inbound setup frames as seen by the SRP phase: the two expected variants,
the `AuthFailed` error, and everything else (other setup variants, other
errors, and non-setup frames), which the source maps to
`Api::UnhandledMessage`. -/
inductive SrpServerMsg
  | identifyToClient (B : Nat) (salt : List Char) (securityLevel : SecurityLevel)
  | proofToClient (M2 : Nat) (securityLevel : SecurityLevel)
  | errorAuthFailed
  | unhandled
deriving DecidableEq, Repr

/-- Errors that terminate the SRP flow. -/
inductive FlowError
  | streamEnded
  | unhandledMessage
  | securityLevelTooLow
  | noPrompt
  | serverProofMismatch
deriving DecidableEq, Repr

/-- The re-prompt message used on `Error{AuthFailed}`. -/
def incorrectPassword : String := "Incorrect password."

/-- The two phases of the SRP interaction: `srp_init` (with the pending
prompt-error message, the bound identifier, and the private key of the live
protocol) and `srp_computed` (with the computed state). -/
inductive SrpPhase
  | initPhase (promptError : Option String) (identifier : List Nat) (a : Nat)
  | computedPhase (identifier : List Nat) (c : SrpComputed)
deriving DecidableEq, Repr

/-- The observable outcome of an SRP flow: the result (`Except.ok` carries
the session-key hash written on success), the final store contents, the
ordered log of storage writes, and the ordered log of prompt requests (each
entry is the error message shown, if any). -/
structure FlowOut where
  result : Except FlowError Nat
  store : Option SessionData
  writes : List SessionData
  prompts : List (Option String)
deriving DecidableEq, Repr

/-- The `srp_init`/`srp_computed` interaction of `src/keepass/manager.rs`,
folded over the inbound message list.  `pws` supplies prompt outcomes
(`none` models a prompt that returns no password, surfaced as
`Password::NoPrompt`); `keys` supplies the fresh private keys drawn on each
`AuthFailed` retry. -/
def srpFlow (sha256 : List Char → Nat) (k : Int) (persistent : Bool)
    (phase : SrpPhase) (pws : List (Option (List Char))) (keys : List Nat)
    (store : Option SessionData) (writes : List SessionData)
    (prompts : List (Option String)) : List SrpServerMsg → FlowOut
  | [] =>
      match phase with
      | SrpPhase.initPhase _ identifier _ =>
          ⟨Except.error FlowError.streamEnded, some ⟨identifier, none⟩,
            writes ++ [⟨identifier, none⟩], prompts⟩
      | SrpPhase.computedPhase _ _ =>
          ⟨Except.error FlowError.streamEnded, store, writes, prompts⟩
  | m :: rest =>
      match phase with
      | SrpPhase.initPhase promptError identifier a =>
          match m with
          | SrpServerMsg.identifyToClient B salt lvl =>
              if lvl.num < (storageSecurityLevel persistent).num then
                ⟨Except.error FlowError.securityLevelTooLow, some ⟨identifier, none⟩,
                  writes ++ [⟨identifier, none⟩], prompts⟩
              else
                match pws with
                | some pw :: pwsRest =>
                    srpFlow sha256 k persistent
                      (SrpPhase.computedPhase identifier (srpCompute sha256 k a B salt pw))
                      pwsRest keys (some ⟨identifier, none⟩) (writes ++ [⟨identifier, none⟩])
                      (prompts ++ [promptError]) rest
                | _ =>
                    ⟨Except.error FlowError.noPrompt, some ⟨identifier, none⟩,
                      writes ++ [⟨identifier, none⟩], prompts ++ [promptError]⟩
          | _ =>
              ⟨Except.error FlowError.unhandledMessage, some ⟨identifier, none⟩,
                writes ++ [⟨identifier, none⟩], prompts⟩
      | SrpPhase.computedPhase identifier c =>
          match m with
          | SrpServerMsg.errorAuthFailed =>
              srpFlow sha256 k persistent
                (SrpPhase.initPhase (some incorrectPassword) identifier (keys.headD 0))
                pws keys.tail store writes prompts rest
          | SrpServerMsg.proofToClient M2 lvl =>
              if lvl.num < (storageSecurityLevel persistent).num then
                ⟨Except.error FlowError.securityLevelTooLow, store, writes, prompts⟩
              else if hashEq c.their_evidence M2 then
                ⟨Except.ok (sha256 (hexUpper c.session_key.toNat)),
                  some ⟨identifier, some (sha256 (hexUpper c.session_key.toNat))⟩,
                  writes ++ [⟨identifier, some (sha256 (hexUpper c.session_key.toNat))⟩],
                  prompts⟩
              else ⟨Except.error FlowError.serverProofMismatch, store, writes, prompts⟩
          | _ => ⟨Except.error FlowError.unhandledMessage, store, writes, prompts⟩

/-- The identifier bound by a phase. -/
def SrpPhase.ident : SrpPhase → List Nat
  | SrpPhase.initPhase _ identifier _ => identifier
  | SrpPhase.computedPhase identifier _ => identifier

/-- The error message carried by the first prompt a phase can issue: the
pending message in `initPhase`, and "Incorrect password." from
`computedPhase` (whose only path to a prompt is the `AuthFailed` retry). -/
def SrpPhase.firstPrompt : SrpPhase → Option String
  | SrpPhase.initPhase promptError _ _ => promptError
  | SrpPhase.computedPhase _ _ => some incorrectPassword

theorem getLast?_cons_of_some {α : Type} (a x : α) (l : List α) (h : l.getLast? = some x) :
    (a :: l).getLast? = some x := by
  cases l with
  | nil => simp at h
  | cons b t => rw [List.getLast?_cons_cons]; exact h

theorem eq_of_mem_of_head_tail {α : Type} {l : List α} {v : α}
    (hhead : ∀ q, l.head? = some q → q = v) (htail : ∀ p ∈ l.tail, p = v) :
    ∀ p ∈ l, p = v := by
  intro p hp
  cases l with
  | nil => simp at hp
  | cons a t =>
      rcases List.mem_cons.mp hp with h | h
      · subst h; exact hhead p rfl
      · exact htail p h

theorem srpFlow_invariants (sha256 : List Char → Nat) (k : Int) (persistent : Bool) :
    ∀ (msgs : List SrpServerMsg) (phase : SrpPhase) (pws : List (Option (List Char)))
      (keys : List Nat) (store : Option SessionData) (writes : List SessionData)
      (prompts : List (Option String)),
      ∃ dw dp,
        (srpFlow sha256 k persistent phase pws keys store writes prompts msgs).writes =
            writes ++ dw ∧
        (srpFlow sha256 k persistent phase pws keys store writes prompts msgs).prompts =
            prompts ++ dp ∧
        (∀ d ∈ dw, d.identifier = phase.ident) ∧
        (∀ d ∈ dw, ∀ h, d.session_key = some h →
          (srpFlow sha256 k persistent phase pws keys store writes prompts msgs).result =
              Except.ok h ∧ dw.getLast? = some d) ∧
        (∀ h,
          (srpFlow sha256 k persistent phase pws keys store writes prompts msgs).result =
              Except.ok h → dw.getLast? = some ⟨phase.ident, some h⟩) ∧
        (∀ q, dp.head? = some q → q = phase.firstPrompt) ∧
        (∀ p ∈ dp.tail, p = some incorrectPassword) := by
  intro msgs
  induction msgs with
  | nil =>
      intro phase pws keys store writes prompts
      cases phase with
      | initPhase pe identifier a =>
          refine ⟨[⟨identifier, none⟩], [], by simp [srpFlow], by simp [srpFlow], ?_, ?_, ?_, ?_, ?_⟩
          · intro d hd; rw [List.mem_singleton] at hd; subst hd; rfl
          · intro d hd h hk; rw [List.mem_singleton] at hd; subst hd; simp at hk
          · intro h hres; simp [srpFlow] at hres
          · intro q hq; simp at hq
          · intro p hp; simp at hp
      | computedPhase identifier c =>
          refine ⟨[], [], by simp [srpFlow], by simp [srpFlow], ?_, ?_, ?_, ?_, ?_⟩
          · intro d hd; simp at hd
          · intro d hd; simp at hd
          · intro h hres; simp [srpFlow] at hres
          · intro q hq; simp at hq
          · intro p hp; simp at hp
  | cons m rest ih =>
      intro phase pws keys store writes prompts
      cases phase with
      | initPhase pe identifier a =>
          cases m with
          | identifyToClient B salt lvl =>
              by_cases hlvl : lvl.num < (storageSecurityLevel persistent).num
              · refine ⟨[⟨identifier, none⟩], [], by simp [srpFlow, hlvl],
                  by simp [srpFlow, hlvl], ?_, ?_, ?_, ?_, ?_⟩
                · intro d hd; rw [List.mem_singleton] at hd; subst hd; rfl
                · intro d hd h hk; rw [List.mem_singleton] at hd; subst hd; simp at hk
                · intro h hres; simp [srpFlow, hlvl] at hres
                · intro q hq; simp at hq
                · intro p hp; simp at hp
              · match pws with
                | some pw :: pwsRest =>
                    obtain ⟨dw, dp, hw, hp, hid, hkeyed, hok, hhead, htail⟩ :=
                      ih (SrpPhase.computedPhase identifier (srpCompute sha256 k a B salt pw))
                        pwsRest keys (some ⟨identifier, none⟩) (writes ++ [⟨identifier, none⟩])
                        (prompts ++ [pe])
                    have hstep :
                        srpFlow sha256 k persistent (SrpPhase.initPhase pe identifier a)
                            (some pw :: pwsRest) keys store writes prompts
                            (SrpServerMsg.identifyToClient B salt lvl :: rest) =
                          srpFlow sha256 k persistent
                            (SrpPhase.computedPhase identifier (srpCompute sha256 k a B salt pw))
                            pwsRest keys (some ⟨identifier, none⟩)
                            (writes ++ [⟨identifier, none⟩]) (prompts ++ [pe]) rest := by
                      simp [srpFlow, hlvl]
                    refine ⟨⟨identifier, none⟩ :: dw, pe :: dp, ?_, ?_, ?_, ?_, ?_, ?_, ?_⟩
                    · rw [hstep, hw]; simp
                    · rw [hstep, hp]; simp
                    · intro d hd
                      rcases List.mem_cons.mp hd with h | h
                      · subst h; rfl
                      · exact hid d h
                    · intro d hd h hk
                      rcases List.mem_cons.mp hd with he | he
                      · subst he; simp at hk
                      · obtain ⟨hres, hlast⟩ := hkeyed d he h hk
                        exact ⟨by rw [hstep]; exact hres, getLast?_cons_of_some _ _ _ hlast⟩
                    · intro h hres
                      rw [hstep] at hres
                      exact getLast?_cons_of_some _ _ _ (hok h hres)
                    · intro q hq
                      simp only [List.head?_cons, Option.some.injEq] at hq
                      subst hq; rfl
                    · intro p hp
                      simp only [List.tail_cons] at hp
                      exact eq_of_mem_of_head_tail hhead htail p hp
                | [] =>
                    refine ⟨[⟨identifier, none⟩], [pe], by simp [srpFlow, hlvl],
                      by simp [srpFlow, hlvl], ?_, ?_, ?_, ?_, ?_⟩
                    · intro d hd; rw [List.mem_singleton] at hd; subst hd; rfl
                    · intro d hd h hk; rw [List.mem_singleton] at hd; subst hd; simp at hk
                    · intro h hres; simp [srpFlow, hlvl] at hres
                    · intro q hq
                      simp only [List.head?_cons, Option.some.injEq] at hq
                      subst hq; rfl
                    · intro p hp; simp at hp
                | none :: pwsRest =>
                    refine ⟨[⟨identifier, none⟩], [pe], by simp [srpFlow, hlvl],
                      by simp [srpFlow, hlvl], ?_, ?_, ?_, ?_, ?_⟩
                    · intro d hd; rw [List.mem_singleton] at hd; subst hd; rfl
                    · intro d hd h hk; rw [List.mem_singleton] at hd; subst hd; simp at hk
                    · intro h hres; simp [srpFlow, hlvl] at hres
                    · intro q hq
                      simp only [List.head?_cons, Option.some.injEq] at hq
                      subst hq; rfl
                    · intro p hp; simp at hp
          | proofToClient M2 lvl =>
              refine ⟨[⟨identifier, none⟩], [], by simp [srpFlow], by simp [srpFlow],
                ?_, ?_, ?_, ?_, ?_⟩
              · intro d hd; rw [List.mem_singleton] at hd; subst hd; rfl
              · intro d hd h hk; rw [List.mem_singleton] at hd; subst hd; simp at hk
              · intro h hres; simp [srpFlow] at hres
              · intro q hq; simp at hq
              · intro p hp; simp at hp
          | errorAuthFailed =>
              refine ⟨[⟨identifier, none⟩], [], by simp [srpFlow], by simp [srpFlow],
                ?_, ?_, ?_, ?_, ?_⟩
              · intro d hd; rw [List.mem_singleton] at hd; subst hd; rfl
              · intro d hd h hk; rw [List.mem_singleton] at hd; subst hd; simp at hk
              · intro h hres; simp [srpFlow] at hres
              · intro q hq; simp at hq
              · intro p hp; simp at hp
          | unhandled =>
              refine ⟨[⟨identifier, none⟩], [], by simp [srpFlow], by simp [srpFlow],
                ?_, ?_, ?_, ?_, ?_⟩
              · intro d hd; rw [List.mem_singleton] at hd; subst hd; rfl
              · intro d hd h hk; rw [List.mem_singleton] at hd; subst hd; simp at hk
              · intro h hres; simp [srpFlow] at hres
              · intro q hq; simp at hq
              · intro p hp; simp at hp
      | computedPhase identifier c =>
          cases m with
          | errorAuthFailed =>
              obtain ⟨dw, dp, hw, hp, hid, hkeyed, hok, hhead, htail⟩ :=
                ih (SrpPhase.initPhase (some incorrectPassword) identifier (keys.headD 0))
                  pws keys.tail store writes prompts
              have hstep :
                  srpFlow sha256 k persistent (SrpPhase.computedPhase identifier c)
                      pws keys store writes prompts (SrpServerMsg.errorAuthFailed :: rest) =
                    srpFlow sha256 k persistent
                      (SrpPhase.initPhase (some incorrectPassword) identifier (keys.headD 0))
                      pws keys.tail store writes prompts rest := by
                simp [srpFlow]
              refine ⟨dw, dp, ?_, ?_, ?_, ?_, ?_, ?_, ?_⟩
              · rw [hstep, hw]
              · rw [hstep, hp]
              · exact hid
              · intro d hd h hk
                obtain ⟨hres, hlast⟩ := hkeyed d hd h hk
                exact ⟨by rw [hstep]; exact hres, hlast⟩
              · intro h hres
                rw [hstep] at hres
                exact hok h hres
              · intro q hq
                exact hhead q hq
              · exact htail
          | proofToClient M2 lvl =>
              by_cases hlvl : lvl.num < (storageSecurityLevel persistent).num
              · refine ⟨[], [], by simp [srpFlow, hlvl], by simp [srpFlow, hlvl],
                  ?_, ?_, ?_, ?_, ?_⟩
                · intro d hd; simp at hd
                · intro d hd; simp at hd
                · intro h hres; simp [srpFlow, hlvl] at hres
                · intro q hq; simp at hq
                · intro p hp; simp at hp
              · by_cases hm : hashEq c.their_evidence M2
                · refine ⟨[⟨identifier, some (sha256 (hexUpper c.session_key.toNat))⟩], [],
                    by simp [srpFlow, hlvl, hm], by simp [srpFlow, hlvl, hm], ?_, ?_, ?_, ?_, ?_⟩
                  · intro d hd; rw [List.mem_singleton] at hd; subst hd; rfl
                  · intro d hd h hk
                    rw [List.mem_singleton] at hd
                    subst hd
                    simp only [Option.some.injEq] at hk
                    subst hk
                    exact ⟨by simp [srpFlow, hlvl, hm], by simp⟩
                  · intro h hres
                    simp [srpFlow, hlvl, hm] at hres
                    subst hres
                    simp [SrpPhase.ident]
                  · intro q hq; simp at hq
                  · intro p hp; simp at hp
                · refine ⟨[], [], by simp [srpFlow, hlvl, hm], by simp [srpFlow, hlvl, hm],
                    ?_, ?_, ?_, ?_, ?_⟩
                  · intro d hd; simp at hd
                  · intro d hd; simp at hd
                  · intro h hres; simp [srpFlow, hlvl, hm] at hres
                  · intro q hq; simp at hq
                  · intro p hp; simp at hp
          | identifyToClient B salt lvl =>
              refine ⟨[], [], by simp [srpFlow], by simp [srpFlow], ?_, ?_, ?_, ?_, ?_⟩
              · intro d hd; simp at hd
              · intro d hd; simp at hd
              · intro h hres; simp [srpFlow] at hres
              · intro q hq; simp at hq
              · intro p hp; simp at hp
          | unhandled =>
              refine ⟨[], [], by simp [srpFlow], by simp [srpFlow], ?_, ?_, ?_, ?_, ?_⟩
              · intro d hd; simp at hd
              · intro d hd; simp at hd
              · intro h hres; simp [srpFlow] at hres
              · intro q hq; simp at hq
              · intro p hp; simp at hp

/-- The SRP flow as entered from `authenticate`: `srp_init` with no pending
prompt error and empty write and prompt logs. -/
def srpRotationRun (sha256 : List Char → Nat) (k : Int) (persistent : Bool)
    (ident : List Nat) (a : Nat) (pws : List (Option (List Char))) (keys : List Nat)
    (store0 : Option SessionData) (msgs : List SrpServerMsg) : FlowOut :=
  srpFlow sha256 k persistent (SrpPhase.initPhase none ident a) pws keys store0 [] [] msgs

/-- Claim C5: when the server answers the SRP proof with `Error{AuthFailed}`,
the manager re-prompts with "Incorrect password." (every prompt after the
first carries exactly that message, and the first prompt carries none) and
restarts the SRP init phase with the same identifier (every storage write
across all retries carries the initial identifier); every stored record
except a final successful one has `session_key = none`, and a record carrying
a session key (`SHA256(hex(K))`, the value returned in the `ok` result) is
persisted only as the final write of a run whose server proof verified. -/
theorem srp_password_rotation (sha256 : List Char → Nat) (k : Int) (persistent : Bool)
    (ident : List Nat) (a : Nat) (pws : List (Option (List Char))) (keys : List Nat)
    (store0 : Option SessionData) (msgs : List SrpServerMsg) :
    (∀ d ∈ (srpRotationRun sha256 k persistent ident a pws keys store0 msgs).writes,
        d.identifier = ident) ∧
    (∀ d ∈ (srpRotationRun sha256 k persistent ident a pws keys store0 msgs).writes,
      ∀ h, d.session_key = some h →
        (srpRotationRun sha256 k persistent ident a pws keys store0 msgs).result =
            Except.ok h ∧
        (srpRotationRun sha256 k persistent ident a pws keys store0 msgs).writes.getLast? =
            some d) ∧
    (∀ e, (srpRotationRun sha256 k persistent ident a pws keys store0 msgs).result =
        Except.error e →
      ∀ d ∈ (srpRotationRun sha256 k persistent ident a pws keys store0 msgs).writes,
        d.session_key = none) ∧
    (∀ h, (srpRotationRun sha256 k persistent ident a pws keys store0 msgs).result =
        Except.ok h →
      (srpRotationRun sha256 k persistent ident a pws keys store0 msgs).writes.getLast? =
        some ⟨ident, some h⟩) ∧
    (∀ q, (srpRotationRun sha256 k persistent ident a pws keys store0 msgs).prompts.head? =
        some q → q = none) ∧
    (∀ p ∈ (srpRotationRun sha256 k persistent ident a pws keys store0 msgs).prompts.tail,
        p = some incorrectPassword) := by
  obtain ⟨dw, dp, hw, hp, hid, hkeyed, hok, hhead, htail⟩ :=
    srpFlow_invariants sha256 k persistent msgs (SrpPhase.initPhase none ident a)
      pws keys store0 [] []
  rw [List.nil_append] at hw hp
  rw [srpRotationRun, hw, hp]
  refine ⟨hid, ?_, ?_, ?_, hhead, htail⟩
  · intro d hd h hk
    obtain ⟨hres, hlast⟩ := hkeyed d hd h hk
    exact ⟨hres, hlast⟩
  · intro e hres d hd
    cases hk : d.session_key with
    | none => rfl
    | some h =>
        obtain ⟨hres2, _⟩ := hkeyed d hd h hk
        rw [hres] at hres2
        exact absurd hres2 (by simp)
  · intro h hres
    exact hok h hres

/-- The inbound messages of the C5 witness run: one identify round followed
by the matching proof. -/
def witRotationMsgs : List SrpServerMsg :=
  [SrpServerMsg.identifyToClient (srpServerB witSha256 0 4 [] ['a']).toNat []
      SecurityLevel.high,
   SrpServerMsg.proofToClient
      (srpCompute witSha256 0 3 (srpServerB witSha256 0 4 [] ['a']).toNat [] ['a']).their_evidence
      SecurityLevel.high]

/-- The session-key hash written by the C5 witness run. -/
def witRotationKey : Nat :=
  witSha256 (hexUpper
    (srpCompute witSha256 0 3 (srpServerB witSha256 0 4 [] ['a']).toNat [] ['a']).session_key.toNat)

/-- Witness for C5 at a concrete successful run. -/
theorem srp_password_rotation_witness :
    (SessionData.mk [5] (some witRotationKey)) ∈
        (srpRotationRun witSha256 0 true [5] 3 [some ['a']] [] none witRotationMsgs).writes ∧
    (SessionData.mk [5] (some witRotationKey)).session_key = some witRotationKey ∧
    ((srpRotationRun witSha256 0 true [5] 3 [some ['a']] [] none witRotationMsgs).result =
        Except.ok witRotationKey ∧
      (srpRotationRun witSha256 0 true [5] 3 [some ['a']] [] none
          witRotationMsgs).writes.getLast? =
        some (SessionData.mk [5] (some witRotationKey))) :=
  ⟨by decide, rfl,
    (srp_password_rotation witSha256 0 true [5] 3 [some ['a']] [] none witRotationMsgs).2.1
      (SessionData.mk [5] (some witRotationKey)) (by decide) witRotationKey rfl⟩

/-! ## C1 / C2 — the KeePassRPC Ready dispatch loop (`src/keepass/manager.rs`)

The `run` loop multiplexes inbound frames and outbound calls over one stream.
It is embedded as a step function over events; an event carries the values the
environment supplies at that point: the frame or call, and the `keyView` — the
outcome of `map_session_key` through the bound store (`none` models a storage
conflict, missing session data, or a missing session key, exactly the cases
`unwrap_or(None)`/`and_then` collapse to `None` in the source; `some key` is
the live session key).  The decrypt parameter stands for `Message::as_jsonrpc`
(`none` = the frame was a plaintext setup frame); the encrypt parameter stands
for `Message::new_from_jsonrpc`.  The `assert!` on duplicate call ids is
modelled as the distinguished `duplicateCallId` abnormal exit.
-/

inductive KJId
  | str (s : String)
  | num (n : Int)
deriving DecidableEq, Repr

inductive KRespVariant
  | result (v : Nat)
  | error (name : String) (message : String)
deriving DecidableEq, Repr

structure KResponse where
  id : KJId
  variant : KRespVariant
deriving DecidableEq, Repr

structure KRequest where
  id : Option KJId
  method : String
  params : List Nat
deriving DecidableEq, Repr

inductive KJsonrpc
  | request (r : KRequest)
  | response (r : KResponse)
deriving DecidableEq, Repr

structure KCall where
  req : KJsonrpc
deriving DecidableEq, Repr

inductive KDecryptError
  | messageAuthenticationFailure
  | decodeFailure
deriving DecidableEq, Repr

inductive KLoopError
  | streamEnded
  | unhandledMessage
  | encryptFailed
  | duplicateCallId
  | storageConflict
deriving DecidableEq, Repr

def assocFind (i : KJId) : List (KJId × KCall) → Option KCall
  | [] => none
  | (j, c) :: rest => if i = j then some c else assocFind i rest

def assocErase (i : KJId) : List (KJId × KCall) → List (KJId × KCall)
  | [] => []
  | (j, c) :: rest => if i = j then assocErase i rest else (j, c) :: assocErase i rest

theorem assocFind_erase (i j : KJId) (l : List (KJId × KCall)) :
    assocFind i (assocErase j l) = if i = j then none else assocFind i l := by
  induction l with
  | nil => by_cases h : i = j <;> simp [assocErase, assocFind, h]
  | cons p rest ih =>
      obtain ⟨q, c⟩ := p
      by_cases hjq : j = q <;> by_cases hiq : i = q <;> by_cases hij : i = j <;>
        simp_all [assocErase, assocFind]

def callIdOf (c : KCall) : Option KJId :=
  match c.req with
  | KJsonrpc.request r => r.id
  | KJsonrpc.response _ => none

inductive ReadyEvent (F K : Type)
  | inbound (keyView : Option K) (frame : F)
  | inboundEnd
  | outbound (keyView : Option K) (call : KCall)
  | outboundEnd
deriving DecidableEq, Repr

inductive ReadyStep (F : Type)
  | more (calls : List (KJId × KCall)) (resolved : List (KJId × Except KLoopError KResponse))
      (sent : List F)
  | finish
  | fatal (e : KLoopError)
  | reauthenticate (pending : Option KCall)
      (resolved : List (KJId × Except KLoopError KResponse))
deriving DecidableEq, Repr

def readyStep {F K : Type} (decrypt : K → F → Option (Except KDecryptError KJsonrpc))
    (encrypt : K → KJsonrpc → Except KLoopError F)
    (calls : List (KJId × KCall)) : ReadyEvent F K → ReadyStep F
  | ReadyEvent.inbound keyView frame =>
      match keyView.map (fun key => decrypt key frame) with
      | some (some (Except.ok (KJsonrpc.response resp))) =>
          match assocFind resp.id calls with
          | some _ => ReadyStep.more (assocErase resp.id calls) [(resp.id, Except.ok resp)] []
          | none => ReadyStep.more calls [] []
      | some none => ReadyStep.fatal KLoopError.streamEnded
      | none =>
          ReadyStep.reauthenticate none
            (calls.map (fun ic => (ic.1, Except.error KLoopError.storageConflict)))
      | _ => ReadyStep.fatal KLoopError.unhandledMessage
  | ReadyEvent.inboundEnd => ReadyStep.fatal KLoopError.streamEnded
  | ReadyEvent.outbound keyView call =>
      match keyView.map (fun key => encrypt key call.req) with
      | some (Except.error e) => ReadyStep.fatal e
      | some (Except.ok frame) =>
          match call.req with
          | KJsonrpc.request req =>
              match req.id with
              | some i =>
                  match assocFind i calls with
                  | some _ => ReadyStep.fatal KLoopError.duplicateCallId
                  | none => ReadyStep.more ((i, call) :: calls) [] [frame]
              | none => ReadyStep.more calls [] [frame]
          | KJsonrpc.response _ => ReadyStep.more calls [] [frame]
      | none => ReadyStep.reauthenticate (some call) []
  | ReadyEvent.outboundEnd => ReadyStep.finish

inductive ReadyOutcome
  | finished
  | failed (e : KLoopError)
  | reauthenticate (pending : Option KCall)
deriving DecidableEq, Repr

structure ReadyRun (F : Type) where
  calls : List (KJId × KCall)
  resolved : List (KJId × Except KLoopError KResponse)
  sent : List F
  outcome : Option ReadyOutcome
deriving DecidableEq, Repr

def runReady {F K : Type} (decrypt : K → F → Option (Except KDecryptError KJsonrpc))
    (encrypt : K → KJsonrpc → Except KLoopError F)
    (calls : List (KJId × KCall)) (resolved : List (KJId × Except KLoopError KResponse))
    (sent : List F) : List (ReadyEvent F K) → ReadyRun F
  | [] => ⟨calls, resolved, sent, none⟩
  | ev :: rest =>
      match readyStep decrypt encrypt calls ev with
      | ReadyStep.more calls2 res2 sent2 =>
          runReady decrypt encrypt calls2 (resolved ++ res2) (sent ++ sent2) rest
      | ReadyStep.finish => ⟨calls, resolved, sent, some ReadyOutcome.finished⟩
      | ReadyStep.fatal e => ⟨calls, resolved, sent, some (ReadyOutcome.failed e)⟩
      | ReadyStep.reauthenticate pending res2 =>
          ⟨calls, resolved ++ res2, sent, some (ReadyOutcome.reauthenticate pending)⟩

theorem runReady_cons {F K : Type} (decrypt : K → F → Option (Except KDecryptError KJsonrpc))
    (encrypt : K → KJsonrpc → Except KLoopError F) (calls : List (KJId × KCall))
    (resolved : List (KJId × Except KLoopError KResponse)) (sent : List F)
    (ev : ReadyEvent F K) (rest : List (ReadyEvent F K)) :
    runReady decrypt encrypt calls resolved sent (ev :: rest) =
      match readyStep decrypt encrypt calls ev with
      | ReadyStep.more calls2 res2 sent2 =>
          runReady decrypt encrypt calls2 (resolved ++ res2) (sent ++ sent2) rest
      | ReadyStep.finish => ⟨calls, resolved, sent, some ReadyOutcome.finished⟩
      | ReadyStep.fatal e => ⟨calls, resolved, sent, some (ReadyOutcome.failed e)⟩
      | ReadyStep.reauthenticate pending res2 =>
          ⟨calls, resolved ++ res2, sent, some (ReadyOutcome.reauthenticate pending)⟩ := rfl

def inboundRespOf {F K : Type} (decrypt : K → F → Option (Except KDecryptError KJsonrpc)) :
    ReadyEvent F K → Option KResponse
  | ReadyEvent.inbound (some key) frame =>
      match decrypt key frame with
      | some (Except.ok (KJsonrpc.response resp)) => some resp
      | _ => none
  | _ => none

def eventCallIds {F K : Type} : List (ReadyEvent F K) → List KJId
  | [] => []
  | ReadyEvent.outbound _ c :: rest =>
      match callIdOf c with
      | some i => i :: eventCallIds rest
      | none => eventCallIds rest
  | _ :: rest => eventCallIds rest

def eventRespIds {F K : Type} (decrypt : K → F → Option (Except KDecryptError KJsonrpc)) :
    List (ReadyEvent F K) → List KJId
  | [] => []
  | ev :: rest =>
      match inboundRespOf decrypt ev with
      | some resp => resp.id :: eventRespIds decrypt rest
      | none => eventRespIds decrypt rest

def eventHealthy {F K : Type} (decrypt : K → F → Option (Except KDecryptError KJsonrpc))
    (encrypt : K → KJsonrpc → Except KLoopError F) : ReadyEvent F K → Bool
  | ReadyEvent.inbound keyView frame =>
      match keyView with
      | some key =>
          match decrypt key frame with
          | some (Except.ok (KJsonrpc.response _)) => true
          | _ => false
      | none => false
  | ReadyEvent.inboundEnd => false
  | ReadyEvent.outbound keyView call =>
      match keyView with
      | some key =>
          (match encrypt key call.req with
           | Except.ok _ => true
           | Except.error _ => false) &&
          (callIdOf call).isSome
      | none => false
  | ReadyEvent.outboundEnd => false

def responsesFollowCalls {F K : Type}
    (decrypt : K → F → Option (Except KDecryptError KJsonrpc)) (sentIds : List KJId) :
    List (ReadyEvent F K) → Bool
  | [] => true
  | ev :: rest =>
      match inboundRespOf decrypt ev with
      | some resp => decide (resp.id ∈ sentIds) && responsesFollowCalls decrypt sentIds rest
      | none =>
          match ev with
          | ReadyEvent.outbound _ c =>
              match callIdOf c with
              | some i => responsesFollowCalls decrypt (i :: sentIds) rest
              | none => responsesFollowCalls decrypt sentIds rest
          | _ => responsesFollowCalls decrypt sentIds rest

theorem runReady_invariants {F K : Type}
    (decrypt : K → F → Option (Except KDecryptError KJsonrpc))
    (encrypt : K → KJsonrpc → Except KLoopError F) :
    ∀ (evs : List (ReadyEvent F K)) (calls : List (KJId × KCall))
      (resolved : List (KJId × Except KLoopError KResponse)) (sent : List F)
      (S R : List KJId),
      (∀ ev ∈ evs, eventHealthy decrypt encrypt ev = true) →
      (S ++ eventCallIds evs).Nodup →
      responsesFollowCalls decrypt S evs = true →
      (∀ i, i ∈ R → i ∈ S) →
      (∀ i, (assocFind i calls).isSome = true ↔ (i ∈ S ∧ i ∉ R)) →
      (∀ i, i ∈ resolved.map Prod.fst ↔ (i ∈ S ∧ i ∈ R)) →
      (resolved.map Prod.fst).Nodup →
      (∀ p ∈ resolved, ∃ resp, p.2 = Except.ok resp ∧ resp.id = p.1) →
      (runReady decrypt encrypt calls resolved sent evs).outcome = none ∧
      (∀ i, i ∈ (runReady decrypt encrypt calls resolved sent evs).resolved.map Prod.fst ↔
        (i ∈ S ++ eventCallIds evs ∧ i ∈ R ++ eventRespIds decrypt evs)) ∧
      ((runReady decrypt encrypt calls resolved sent evs).resolved.map Prod.fst).Nodup ∧
      (∀ p ∈ (runReady decrypt encrypt calls resolved sent evs).resolved,
        ∃ resp, p.2 = Except.ok resp ∧ resp.id = p.1) := by
  intro evs
  induction evs with
  | nil =>
      intro calls resolved sent S R hhealthy hnodup hfollow hRS hfind hres hresnd hresok
      refine ⟨rfl, ?_, hresnd, hresok⟩
      intro i
      simp only [runReady, eventCallIds, eventRespIds, List.append_nil]
      exact hres i
  | cons ev rest ih =>
      intro calls resolved sent S R hhealthy hnodup hfollow hRS hfind hres hresnd hresok
      have hhe : eventHealthy decrypt encrypt ev = true := hhealthy ev (List.mem_cons_self ev rest)
      have hhrest : ∀ e ∈ rest, eventHealthy decrypt encrypt e = true := fun e he =>
        hhealthy e (List.mem_cons_of_mem ev he)
      cases ev with
      | inboundEnd => simp [eventHealthy] at hhe
      | outboundEnd => simp [eventHealthy] at hhe
      | inbound keyView frame =>
          cases keyView with
          | none => simp [eventHealthy] at hhe
          | some key =>
              cases hdec : decrypt key frame with
              | none => simp [eventHealthy, hdec] at hhe
              | some exc =>
                  cases exc with
                  | error e => simp [eventHealthy, hdec] at hhe
                  | ok j =>
                      cases j with
                      | request r => simp [eventHealthy, hdec] at hhe
                      | response resp =>
                          have hresp : inboundRespOf decrypt
                              (ReadyEvent.inbound (F := F) (some key) frame) = some resp := by
                            simp [inboundRespOf, hdec]
                          have hci : eventCallIds
                              (ReadyEvent.inbound (F := F) (K := K) (some key) frame :: rest) =
                              eventCallIds rest := by
                            simp [eventCallIds]
                          have hri : eventRespIds decrypt
                              (ReadyEvent.inbound (some key) frame :: rest) =
                              resp.id :: eventRespIds decrypt rest := by
                            simp [eventRespIds, hresp]
                          simp only [responsesFollowCalls, hresp, Bool.and_eq_true,
                            decide_eq_true_eq] at hfollow
                          have hmemS : resp.id ∈ S := hfollow.1
                          have hfrest : responsesFollowCalls decrypt S rest = true := hfollow.2
                          rw [hci] at hnodup
                          cases hfound : assocFind resp.id calls with
                          | some c =>
                              have hstep : readyStep decrypt encrypt calls
                                  (ReadyEvent.inbound (some key) frame) =
                                  ReadyStep.more (assocErase resp.id calls)
                                    [(resp.id, Except.ok resp)] [] := by
                                simp only [readyStep, Option.map_some', hdec, hfound]
                              have hrun : runReady decrypt encrypt calls resolved sent
                                  (ReadyEvent.inbound (some key) frame :: rest) =
                                  runReady decrypt encrypt (assocErase resp.id calls)
                                    (resolved ++ [(resp.id, Except.ok resp)]) (sent ++ []) rest := by
                                rw [runReady_cons, hstep]
                              have hnotR : resp.id ∉ R :=
                                ((hfind resp.id).mp (by rw [hfound]; rfl)).2
                              obtain ⟨ihout, ihmem, ihnd, ihok⟩ :=
                                ih (assocErase resp.id calls)
                                  (resolved ++ [(resp.id, Except.ok resp)]) (sent ++ [])
                                  S (resp.id :: R) hhrest hnodup hfrest
                                  (fun i hi => by
                                    rcases List.mem_cons.mp hi with h | h
                                    · exact h ▸ hmemS
                                    · exact hRS i h)
                                  (fun i => by
                                    rw [assocFind_erase]
                                    by_cases hieq : i = resp.id
                                    · subst hieq
                                      simp
                                    · simp only [if_neg hieq]
                                      rw [hfind i]
                                      simp [List.mem_cons, hieq])
                                  (fun i => by
                                    simp only [List.map_append, List.map_cons, List.map_nil,
                                      List.mem_append, List.mem_singleton, List.mem_cons]
                                    rw [hres i]
                                    by_cases hieq : i = resp.id
                                    · subst hieq
                                      simp [hmemS]
                                    · simp [hieq])
                                  (by
                                    simp only [List.map_append, List.map_cons, List.map_nil]
                                    rw [List.nodup_append]
                                    refine ⟨hresnd, List.nodup_singleton _, ?_⟩
                                    intro i hi hmem
                                    rw [List.mem_singleton] at hmem
                                    subst hmem
                                    exact hnotR ((hres _).mp hi).2)
                                  (by
                                    intro p hp
                                    rcases List.mem_append.mp hp with h | h
                                    · exact hresok p h
                                    · rw [List.mem_singleton] at h
                                      subst h
                                      exact ⟨resp, rfl, rfl⟩)
                              rw [hrun]
                              refine ⟨ihout, ?_, ihnd, ihok⟩
                              intro i
                              rw [ihmem i, hci, hri]
                              simp only [List.mem_append, List.mem_cons]
                              tauto
                          | none =>
                              have hstep : readyStep decrypt encrypt calls
                                  (ReadyEvent.inbound (some key) frame) =
                                  ReadyStep.more calls [] [] := by
                                simp only [readyStep, Option.map_some', hdec, hfound]
                              have hrun : runReady decrypt encrypt calls resolved sent
                                  (ReadyEvent.inbound (some key) frame :: rest) =
                                  runReady decrypt encrypt calls (resolved ++ []) (sent ++ [])
                                    rest := by
                                rw [runReady_cons, hstep]
                              have hmemR : resp.id ∈ R := by
                                by_contra hnot
                                have hsome : (assocFind resp.id calls).isSome = true :=
                                  (hfind resp.id).mpr ⟨hmemS, hnot⟩
                                rw [hfound] at hsome
                                simp at hsome
                              obtain ⟨ihout, ihmem, ihnd, ihok⟩ :=
                                ih calls (resolved ++ []) (sent ++ []) S R hhrest hnodup
                                  hfrest hRS hfind
                                  (by rw [List.append_nil]; exact hres)
                                  (by rw [List.append_nil]; exact hresnd)
                                  (by rw [List.append_nil]; exact hresok)
                              rw [hrun]
                              refine ⟨ihout, ?_, ihnd, ihok⟩
                              intro i
                              rw [ihmem i, hci, hri]
                              simp only [List.mem_append, List.mem_cons]
                              by_cases hieq : i = resp.id
                              · subst hieq
                                simp [hmemR]
                              · simp [hieq]
      | outbound keyView call =>
          cases keyView with
          | none => simp [eventHealthy] at hhe
          | some key =>
              cases henc : encrypt key call.req with
              | error e => simp [eventHealthy, henc] at hhe
              | ok frame =>
                  cases hid : callIdOf call with
                  | none => simp [eventHealthy, henc, hid] at hhe
                  | some i0 =>
                      have hnoresp : inboundRespOf decrypt
                          (ReadyEvent.outbound (F := F) (some key) call) = none := by
                        simp [inboundRespOf]
                      have hci : eventCallIds
                          (ReadyEvent.outbound (F := F) (K := K) (some key) call :: rest) =
                          i0 :: eventCallIds rest := by
                        simp [eventCallIds, hid]
                      have hri : eventRespIds decrypt
                          (ReadyEvent.outbound (some key) call :: rest) =
                          eventRespIds decrypt rest := by
                        simp [eventRespIds, hnoresp]
                      simp only [responsesFollowCalls, hnoresp, hid] at hfollow
                      rw [hci] at hnodup
                      have hnodup2 : (i0 :: (S ++ eventCallIds rest)).Nodup :=
                        (List.perm_middle).nodup hnodup
                      rw [List.nodup_cons] at hnodup2
                      have hi0S : i0 ∉ S := fun h => hnodup2.1 (List.mem_append.mpr (Or.inl h))
                      have hi0R : i0 ∉ R := fun h => hi0S (hRS i0 h)
                      have hfoundnone : assocFind i0 calls = none := by
                        cases hf : assocFind i0 calls with
                        | none => rfl
                        | some c =>
                            exact absurd (((hfind i0).mp (by rw [hf]; rfl)).1) hi0S
                      obtain ⟨r, hreq, hrid⟩ : ∃ r, call.req = KJsonrpc.request r ∧
                          r.id = some i0 := by
                        cases hc : call.req with
                        | request r => exact ⟨r, rfl, by rw [callIdOf, hc] at hid; exact hid⟩
                        | response r => rw [callIdOf, hc] at hid; exact absurd hid (by simp)
                      rw [hreq] at henc
                      have hstep : readyStep decrypt encrypt calls
                          (ReadyEvent.outbound (some key) call) =
                          ReadyStep.more ((i0, call) :: calls) [] [frame] := by
                        simp only [readyStep, Option.map_some', hreq, henc, hrid, hfoundnone]
                      have hrun : runReady decrypt encrypt calls resolved sent
                          (ReadyEvent.outbound (some key) call :: rest) =
                          runReady decrypt encrypt ((i0, call) :: calls) (resolved ++ [])
                            (sent ++ [frame]) rest := by
                        rw [runReady_cons, hstep]
                      obtain ⟨ihout, ihmem, ihnd, ihok⟩ :=
                        ih ((i0, call) :: calls) (resolved ++ []) (sent ++ [frame])
                          (i0 :: S) R hhrest
                          (by
                            rw [show (i0 :: S) ++ eventCallIds rest =
                              i0 :: (S ++ eventCallIds rest) from rfl, List.nodup_cons]
                            exact hnodup2)
                          hfollow
                          (fun i hi => List.mem_cons_of_mem i0 (hRS i hi))
                          (fun i => by
                            simp only [assocFind]
                            by_cases hieq : i = i0
                            · subst hieq
                              simp [hi0R]
                            · simp only [if_neg hieq]
                              rw [hfind i]
                              simp [List.mem_cons, hieq])
                          (fun i => by
                            rw [List.append_nil, hres i]
                            simp only [List.mem_cons]
                            by_cases hieq : i = i0
                            · subst hieq
                              constructor
                              · rintro ⟨h1, h2⟩
                                exact ⟨Or.inr h1, h2⟩
                              · rintro ⟨h1, h2⟩
                                exact absurd h2 hi0R
                            · simp [hieq])
                          (by rw [List.append_nil]; exact hresnd)
                          (by rw [List.append_nil]; exact hresok)
                      rw [hrun]
                      refine ⟨ihout, ?_, ihnd, ihok⟩
                      intro i
                      rw [ihmem i, hci, hri]
                      simp only [List.mem_append, List.mem_cons]
                      tauto

/-- Claim C2: for any interleaving of concurrent calls with unique request
ids and any order of inbound responses (each response following its request,
every event healthy: live key, decryptable responses, encryptable
id-carrying requests, and every call eventually answered), the Ready loop
runs to completion, every reply slot is resolved exactly once (the resolved
ids are duplicate-free and are exactly the sent call ids), and each slot is
resolved with `Ok` of precisely the response whose JSON-RPC id equals that
call's request id — request-response correspondence, not FIFO arrival
order. -/
theorem ready_loop_multiplexing {F K : Type}
    (decrypt : K → F → Option (Except KDecryptError KJsonrpc))
    (encrypt : K → KJsonrpc → Except KLoopError F) (evs : List (ReadyEvent F K))
    (hhealthy : ∀ ev ∈ evs, eventHealthy decrypt encrypt ev = true)
    (hnodup : (eventCallIds evs).Nodup)
    (hfollow : responsesFollowCalls decrypt [] evs = true)
    (hcomplete : ∀ i ∈ eventCallIds evs, i ∈ eventRespIds decrypt evs) :
    (runReady decrypt encrypt [] [] [] evs).outcome = none ∧
    (∀ p ∈ (runReady decrypt encrypt [] [] ([] : List F) evs).resolved,
      ∃ resp, p.2 = Except.ok resp ∧ resp.id = p.1) ∧
    ((runReady decrypt encrypt [] [] [] evs).resolved.map Prod.fst).Nodup ∧
    (∀ i, i ∈ (runReady decrypt encrypt [] [] [] evs).resolved.map Prod.fst ↔
      i ∈ eventCallIds evs) := by
  obtain ⟨hout, hmem, hnd, hok⟩ :=
    runReady_invariants decrypt encrypt evs [] [] [] [] []
      hhealthy (by simpa using hnodup) hfollow
      (fun i hi => absurd hi (List.not_mem_nil i))
      (fun i => by simp [assocFind]) (fun i => by simp) (by simp) (by simp)
  refine ⟨hout, hok, hnd, ?_⟩
  intro i
  rw [hmem i]
  simp only [List.nil_append]
  constructor
  · rintro ⟨h1, _⟩
    exact h1
  · intro h1
    exact ⟨h1, hcomplete i h1⟩

/-- Witness stand-ins for the ready loop: frames are bare responses. -/
def witDecrypt (key : Nat) (frame : KResponse) : Option (Except KDecryptError KJsonrpc) :=
  some (Except.ok (KJsonrpc.response frame))

def witEncrypt (key : Nat) (req : KJsonrpc) : Except KLoopError KResponse :=
  Except.ok ⟨KJId.str "frame", KRespVariant.result 0⟩

def witCall (s : String) : KCall :=
  ⟨KJsonrpc.request ⟨some (KJId.str s), "GetRoot", []⟩⟩

def witReadyEvents : List (ReadyEvent KResponse Nat) :=
  [ReadyEvent.outbound (some 0) (witCall "1"),
   ReadyEvent.outbound (some 0) (witCall "2"),
   ReadyEvent.inbound (some 0) ⟨KJId.str "2", KRespVariant.result 7⟩,
   ReadyEvent.inbound (some 0) ⟨KJId.str "1", KRespVariant.result 8⟩]

theorem ready_loop_multiplexing_witness :
    (∀ ev ∈ witReadyEvents, eventHealthy witDecrypt witEncrypt ev = true) ∧
    (eventCallIds witReadyEvents).Nodup ∧
    responsesFollowCalls witDecrypt [] witReadyEvents = true ∧
    (∀ i ∈ eventCallIds witReadyEvents, i ∈ eventRespIds witDecrypt witReadyEvents) ∧
    (∀ i, i ∈ (runReady witDecrypt witEncrypt [] [] [] witReadyEvents).resolved.map Prod.fst ↔
      i ∈ eventCallIds witReadyEvents) :=
  ⟨by decide, by decide, by decide, by decide,
    (ready_loop_multiplexing witDecrypt witEncrypt witReadyEvents (by decide) (by decide)
      (by decide) (by decide)).2.2.2⟩

def witBadDecrypt (key : Nat) (frame : Nat) : Option (Except KDecryptError KJsonrpc) :=
  some (Except.error KDecryptError.messageAuthenticationFailure)

def witPlainEncrypt (key : Nat) (req : KJsonrpc) : Except KLoopError Nat :=
  Except.ok 0

/-- Counterexample to claim C1 as stated: an inbound frame that fails
decryption under the live session key (`keyView = some key`,
`decrypt key frame = some (Except.error ...)`) falls into the catch-all match
arm of the dispatch loop and terminates the worker with the fatal
`Api::UnhandledMessage` error — pending slots are not resolved with
`Conflict` and the manager does not re-authenticate. -/
theorem ready_decrypt_failure_fatal_cex :
    readyStep witBadDecrypt witPlainEncrypt [(KJId.str "1", witCall "1")]
        (ReadyEvent.inbound (some 0) 0) =
      ReadyStep.fatal KLoopError.unhandledMessage := by decide

/-- Claim C1 (amended): in the Ready loop, when the store no longer yields a
session key for an inbound frame (missing or conflicting session data — the
`keyView = none` case), the worker does not fail: every pending reply slot is
resolved with `Storage::Conflict` and the manager transitions back to
re-authentication; an unsent outbound call is carried as pending only on the
outbound no-key path.  By contrast, a frame that fails decryption under the
live session key is fatal: the worker terminates with
`Api::UnhandledMessage`. -/
theorem ready_step_missing_key_and_decrypt_failure {F K : Type}
    (decrypt : K → F → Option (Except KDecryptError KJsonrpc))
    (encrypt : K → KJsonrpc → Except KLoopError F)
    (calls : List (KJId × KCall)) (frame : F) (key : K) (derr : KDecryptError)
    (hdec : decrypt key frame = some (Except.error derr)) :
    readyStep decrypt encrypt calls (ReadyEvent.inbound none frame) =
      ReadyStep.reauthenticate none
        (calls.map (fun ic => (ic.1, Except.error KLoopError.storageConflict))) ∧
    readyStep decrypt encrypt calls (ReadyEvent.inbound (some key) frame) =
      ReadyStep.fatal KLoopError.unhandledMessage := by
  constructor
  · rfl
  · simp only [readyStep, Option.map_some', hdec]

theorem ready_step_missing_key_and_decrypt_failure_witness :
    witBadDecrypt 0 0 = some (Except.error KDecryptError.messageAuthenticationFailure) ∧
    readyStep witBadDecrypt witPlainEncrypt [] (ReadyEvent.inbound none 0) =
      ReadyStep.reauthenticate none [] :=
  ⟨rfl, by
    have h := (ready_step_missing_key_and_decrypt_failure witBadDecrypt witPlainEncrypt []
      0 0 KDecryptError.messageAuthenticationFailure rfl).1
    simpa using h⟩

/-! ## C7 — KeePassXC lock gating (`src/keepassxc/manager.rs`)

`Manager::run` loops: when no session `Key` is held it first runs
`authenticate` (whose `DatabaseNotOpened` server error is translated to a
wait), then `select!`s one of: a signal change, an inbound message, or — only
when `self.key.is_some()` — a new call.  The loop is embedded as a structural
interpreter over a schedule of items; an auth item is admissible exactly when
the key is absent at the top of an iteration, and a call item is never
admissible while the key is absent (the select guard), which the interpreter
reports as `invalidSchedule`.  The run emits a trace recording successful
authentications, processed signals and messages, and accepted calls.
-/

structure XcKey where
  id : String
  key : List Nat
deriving DecidableEq, Repr

structure XcCall where
  action : String
  req : Nat
deriving DecidableEq, Repr

inductive XcSignal
  | databaseLocked
  | databaseUnlocked
deriving DecidableEq, Repr

inductive XcAuthOutcome
  | success (k : XcKey)
  | waitForUnlock
  | failure
deriving DecidableEq, Repr

structure XcError where
  code : Nat
  text : String
deriving DecidableEq, Repr

structure XcResponse where
  action : String
  error : Option XcError
  nonce : Option (List Nat)
  value : Nat
deriving DecidableEq, Repr

inductive XcItem
  | auth (a : XcAuthOutcome)
  | signal (s : Option XcSignal)
  | message (m : XcResponse)
  | call (nonce : List Nat) (c : XcCall)
  | callsEnd
deriving DecidableEq, Repr

structure XcState where
  key : Option XcKey
  calls : List (List Nat × XcCall)
deriving DecidableEq, Repr

/-- `Manager::handle_signal`: a `DatabaseLocked` signal clears the session
key; `DatabaseUnlocked` (and an empty watch cell) leaves the state
unchanged. -/
def handleSignal (borrowed : Option XcSignal) (st : XcState) : XcState :=
  match borrowed with
  | some XcSignal.databaseLocked => { st with key := none }
  | some XcSignal.databaseUnlocked => st
  | none => st

inductive XcTraceItem
  | authSuccess
  | authWait
  | signalSeen (s : Option XcSignal)
  | messageSeen
  | callAccepted (c : XcCall)
deriving DecidableEq, Repr

inductive XcOutcome
  | finished
  | fatal
  | invalidSchedule
deriving DecidableEq, Repr

structure XcRunOut where
  state : XcState
  trace : List XcTraceItem
  outcome : Option XcOutcome
deriving DecidableEq, Repr

def xcFind (n : List Nat) : List (List Nat × XcCall) → Option XcCall
  | [] => none
  | (m, c) :: rest => if n = m then some c else xcFind n rest

def xcErase (n : List Nat) : List (List Nat × XcCall) → List (List Nat × XcCall)
  | [] => []
  | (m, c) :: rest => if n = m then xcErase n rest else (m, c) :: xcErase n rest

/-- `Manager::handle_message`: a message arriving before authentication is
ignored with a warning; a server error fails exactly the pending calls whose
action matches the response action; otherwise the nonce of the encrypted
payload must match a pending call (`Api::InvalidNonce` and undecodable
payloads are fatal). -/
def xcHandleMessage (st : XcState) (m : XcResponse) : Except Unit XcState :=
  match st.key with
  | none => Except.ok st
  | some _ =>
      match m.error with
      | some _ =>
          Except.ok { st with calls := st.calls.filter (fun nc => decide (nc.2.action ≠ m.action)) }
      | none =>
          match m.nonce with
          | some n =>
              match xcFind n st.calls with
              | some _ => Except.ok { st with calls := xcErase n st.calls }
              | none => Except.error ()
          | none => Except.error ()

/-- One run of `Manager::run` over a schedule.  `inSelect` is true when the
current iteration has already performed its authentication step and is about
to `select!`. -/
def xcRun (inSelect : Bool) (st : XcState) : List XcItem → XcRunOut
  | [] => ⟨st, [], none⟩
  | item :: rest =>
      match inSelect, st.key, item with
      | false, none, XcItem.auth a =>
          match a with
          | XcAuthOutcome.success k =>
              let out := xcRun true { st with key := some k } rest
              ⟨out.state, XcTraceItem.authSuccess :: out.trace, out.outcome⟩
          | XcAuthOutcome.waitForUnlock =>
              let out := xcRun true st rest
              ⟨out.state, XcTraceItem.authWait :: out.trace, out.outcome⟩
          | XcAuthOutcome.failure => ⟨st, [], some XcOutcome.fatal⟩
      | false, none, _ => ⟨st, [], some XcOutcome.invalidSchedule⟩
      | _, some _, XcItem.auth _ => ⟨st, [], some XcOutcome.invalidSchedule⟩
      | true, none, XcItem.auth _ => ⟨st, [], some XcOutcome.invalidSchedule⟩
      | _, _, XcItem.signal s =>
          let out := xcRun false (handleSignal s st) rest
          ⟨out.state, XcTraceItem.signalSeen s :: out.trace, out.outcome⟩
      | _, _, XcItem.message m =>
          match xcHandleMessage st m with
          | Except.ok st2 =>
              let out := xcRun false st2 rest
              ⟨out.state, XcTraceItem.messageSeen :: out.trace, out.outcome⟩
          | Except.error _ => ⟨st, [], some XcOutcome.fatal⟩
      | _, _, XcItem.call nonce c =>
          match st.key with
          | none => ⟨st, [], some XcOutcome.invalidSchedule⟩
          | some _ =>
              match xcFind nonce st.calls with
              | some _ => ⟨st, [], some XcOutcome.fatal⟩
              | none =>
                  let out := xcRun false { st with calls := st.calls ++ [(nonce, c)] } rest
                  ⟨out.state, XcTraceItem.callAccepted c :: out.trace, out.outcome⟩
      | _, _, XcItem.callsEnd => ⟨st, [], some XcOutcome.finished⟩

theorem handleSignal_key_none (s : Option XcSignal) (st : XcState) (h : st.key = none) :
    (handleSignal s st).key = none := by
  cases s with
  | none => exact h
  | some sig => cases sig <;> simp [handleSignal, h]

theorem xcRun_gate_of_key_none :
    ∀ (items : List XcItem) (inSelect : Bool) (st : XcState), st.key = none →
      ∀ t1 c t2, (xcRun inSelect st items).trace =
          t1 ++ XcTraceItem.callAccepted c :: t2 →
        XcTraceItem.authSuccess ∈ t1 := by
  intro items
  induction items with
  | nil =>
      intro inSelect st hk t1 c t2 h
      rcases t1 with _ | ⟨x, t1⟩ <;> simp [xcRun] at h
  | cons item rest ih =>
      intro inSelect st hk t1 c t2 h
      obtain ⟨key, calls⟩ := st
      simp only at hk
      subst hk
      cases inSelect with
      | false =>
          cases item with
          | auth a =>
              cases a with
              | success k =>
                  simp only [xcRun] at h
                  rcases t1 with _ | ⟨x, t1⟩
                  · rw [List.nil_append] at h
                    injection h with h1 h2
                    simp at h1
                  · rw [List.cons_append] at h
                    injection h with h1 h2
                    rw [← h1]
                    exact List.mem_cons_self _ _
              | waitForUnlock =>
                  simp only [xcRun] at h
                  rcases t1 with _ | ⟨x, t1⟩
                  · rw [List.nil_append] at h
                    injection h with h1 h2
                    simp at h1
                  · rw [List.cons_append] at h
                    injection h with h1 h2
                    exact List.mem_cons_of_mem _ (ih true ⟨none, calls⟩ rfl t1 c t2 h2)
              | failure =>
                  simp only [xcRun] at h
                  rcases t1 with _ | ⟨x, t1⟩ <;> simp at h
          | signal s =>
              simp only [xcRun] at h
              rcases t1 with _ | ⟨x, t1⟩ <;> simp at h
          | message m =>
              simp only [xcRun] at h
              rcases t1 with _ | ⟨x, t1⟩ <;> simp at h
          | call nonce c2 =>
              simp only [xcRun] at h
              rcases t1 with _ | ⟨x, t1⟩ <;> simp at h
          | callsEnd =>
              simp only [xcRun] at h
              rcases t1 with _ | ⟨x, t1⟩ <;> simp at h
      | true =>
          cases item with
          | auth a =>
              simp only [xcRun] at h
              rcases t1 with _ | ⟨x, t1⟩ <;> simp at h
          | signal s =>
              simp only [xcRun] at h
              rcases t1 with _ | ⟨x, t1⟩
              · rw [List.nil_append] at h
                injection h with h1 h2
                simp at h1
              · rw [List.cons_append] at h
                injection h with h1 h2
                refine List.mem_cons_of_mem _ (ih false (handleSignal s ⟨none, calls⟩) ?_ t1 c t2 h2)
                exact handleSignal_key_none s ⟨none, calls⟩ rfl
          | message m =>
              have hmsg : xcHandleMessage ⟨none, calls⟩ m = Except.ok ⟨none, calls⟩ := by
                simp [xcHandleMessage]
              simp only [xcRun, hmsg] at h
              rcases t1 with _ | ⟨x, t1⟩
              · rw [List.nil_append] at h
                injection h with h1 h2
                simp at h1
              · rw [List.cons_append] at h
                injection h with h1 h2
                exact List.mem_cons_of_mem _ (ih false ⟨none, calls⟩ rfl t1 c t2 h2)
          | call nonce c2 =>
              simp only [xcRun] at h
              rcases t1 with _ | ⟨x, t1⟩ <;> simp at h
          | callsEnd =>
              simp only [xcRun] at h
              rcases t1 with _ | ⟨x, t1⟩ <;> simp at h


theorem xcRun_lock_gate :
    ∀ (items : List XcItem) (inSelect : Bool) (st : XcState),
      ∀ t1 t2 t3 c, (xcRun inSelect st items).trace =
          t1 ++ XcTraceItem.signalSeen (some XcSignal.databaseLocked) ::
            (t2 ++ XcTraceItem.callAccepted c :: t3) →
        XcTraceItem.authSuccess ∈ t2 := by
  intro items
  induction items with
  | nil =>
      intro inSelect st t1 t2 t3 c h
      rcases t1 with _ | ⟨x, t1⟩ <;> simp [xcRun] at h
  | cons item rest ih =>
      intro inSelect st t1 t2 t3 c h
      obtain ⟨key, calls⟩ := st
      cases key with
      | none =>
          cases inSelect with
          | false =>
              cases item with
              | auth a =>
                  cases a with
                  | success k =>
                      simp only [xcRun] at h
                      rcases t1 with _ | ⟨x, t1⟩
                      · rw [List.nil_append] at h
                        injection h with h1 h2
                        simp at h1
                      · rw [List.cons_append] at h
                        injection h with h1 h2
                        exact ih true ⟨some k, calls⟩ t1 t2 t3 c h2
                  | waitForUnlock =>
                      simp only [xcRun] at h
                      rcases t1 with _ | ⟨x, t1⟩
                      · rw [List.nil_append] at h
                        injection h with h1 h2
                        simp at h1
                      · rw [List.cons_append] at h
                        injection h with h1 h2
                        exact ih true ⟨none, calls⟩ t1 t2 t3 c h2
                  | failure =>
                      simp only [xcRun] at h
                      rcases t1 with _ | ⟨x, t1⟩ <;> simp at h
              | signal s =>
                  simp only [xcRun] at h
                  rcases t1 with _ | ⟨x, t1⟩ <;> simp at h
              | message m =>
                  simp only [xcRun] at h
                  rcases t1 with _ | ⟨x, t1⟩ <;> simp at h
              | call nonce c2 =>
                  simp only [xcRun] at h
                  rcases t1 with _ | ⟨x, t1⟩ <;> simp at h
              | callsEnd =>
                  simp only [xcRun] at h
                  rcases t1 with _ | ⟨x, t1⟩ <;> simp at h
          | true =>
              cases item with
              | auth a =>
                  simp only [xcRun] at h
                  rcases t1 with _ | ⟨x, t1⟩ <;> simp at h
              | signal s =>
                  simp only [xcRun] at h
                  rcases t1 with _ | ⟨x, t1⟩
                  · rw [List.nil_append] at h
                    injection h with h1 h2
                    injection h1 with hs
                    subst hs
                    exact xcRun_gate_of_key_none rest false
                      (handleSignal (some XcSignal.databaseLocked) ⟨none, calls⟩)
                      (handleSignal_key_none _ _ rfl) t2 c t3 h2
                  · rw [List.cons_append] at h
                    injection h with h1 h2
                    exact ih false (handleSignal s ⟨none, calls⟩) t1 t2 t3 c h2
              | message m =>
                  have hmsg : xcHandleMessage ⟨none, calls⟩ m = Except.ok ⟨none, calls⟩ := by
                    simp [xcHandleMessage]
                  simp only [xcRun, hmsg] at h
                  rcases t1 with _ | ⟨x, t1⟩
                  · rw [List.nil_append] at h
                    injection h with h1 h2
                    simp at h1
                  · rw [List.cons_append] at h
                    injection h with h1 h2
                    exact ih false ⟨none, calls⟩ t1 t2 t3 c h2
              | call nonce c2 =>
                  simp only [xcRun] at h
                  rcases t1 with _ | ⟨x, t1⟩ <;> simp at h
              | callsEnd =>
                  simp only [xcRun] at h
                  rcases t1 with _ | ⟨x, t1⟩ <;> simp at h
      | some k =>
          cases item with
          | auth a =>
              cases inSelect <;> simp only [xcRun] at h <;>
                rcases t1 with _ | ⟨x, t1⟩ <;> simp at h
          | signal s =>
              have hstep : xcRun inSelect ⟨some k, calls⟩ (XcItem.signal s :: rest) =
                  ⟨(xcRun false (handleSignal s ⟨some k, calls⟩) rest).state,
                    XcTraceItem.signalSeen s ::
                      (xcRun false (handleSignal s ⟨some k, calls⟩) rest).trace,
                    (xcRun false (handleSignal s ⟨some k, calls⟩) rest).outcome⟩ := by
                cases inSelect <;> rfl
              rw [hstep] at h
              rcases t1 with _ | ⟨x, t1⟩
              · rw [List.nil_append] at h
                injection h with h1 h2
                injection h1 with hs
                subst hs
                exact xcRun_gate_of_key_none rest false
                  (handleSignal (some XcSignal.databaseLocked) ⟨some k, calls⟩)
                  (by simp [handleSignal]) t2 c t3 h2
              · rw [List.cons_append] at h
                injection h with h1 h2
                exact ih false (handleSignal s ⟨some k, calls⟩) t1 t2 t3 c h2
          | message m =>
              cases hmsg : xcHandleMessage ⟨some k, calls⟩ m with
              | ok st2 =>
                  have hstep : xcRun inSelect ⟨some k, calls⟩ (XcItem.message m :: rest) =
                      ⟨(xcRun false st2 rest).state,
                        XcTraceItem.messageSeen :: (xcRun false st2 rest).trace,
                        (xcRun false st2 rest).outcome⟩ := by
                    cases inSelect <;> simp [xcRun, hmsg]
                  rw [hstep] at h
                  rcases t1 with _ | ⟨x, t1⟩
                  · rw [List.nil_append] at h
                    injection h with h1 h2
                    simp at h1
                  · rw [List.cons_append] at h
                    injection h with h1 h2
                    exact ih false st2 t1 t2 t3 c h2
              | error e =>
                  have hstep : xcRun inSelect ⟨some k, calls⟩ (XcItem.message m :: rest) =
                      ⟨⟨some k, calls⟩, [], some XcOutcome.fatal⟩ := by
                    cases inSelect <;> simp [xcRun, hmsg]
                  rw [hstep] at h
                  rcases t1 with _ | ⟨x, t1⟩ <;> simp at h
          | call nonce c2 =>
              cases hfind : xcFind nonce calls with
              | some c3 =>
                  have hstep : xcRun inSelect ⟨some k, calls⟩ (XcItem.call nonce c2 :: rest) =
                      ⟨⟨some k, calls⟩, [], some XcOutcome.fatal⟩ := by
                    cases inSelect <;> simp [xcRun, hfind]
                  rw [hstep] at h
                  rcases t1 with _ | ⟨x, t1⟩ <;> simp at h
              | none =>
                  have hstep : xcRun inSelect ⟨some k, calls⟩ (XcItem.call nonce c2 :: rest) =
                      ⟨(xcRun false ⟨some k, calls ++ [(nonce, c2)]⟩ rest).state,
                        XcTraceItem.callAccepted c2 ::
                          (xcRun false ⟨some k, calls ++ [(nonce, c2)]⟩ rest).trace,
                        (xcRun false ⟨some k, calls ++ [(nonce, c2)]⟩ rest).outcome⟩ := by
                    cases inSelect <;> simp [xcRun, hfind]
                  rw [hstep] at h
                  rcases t1 with _ | ⟨x, t1⟩
                  · rw [List.nil_append] at h
                    injection h with h1 h2
                    simp at h1
                  · rw [List.cons_append] at h
                    injection h with h1 h2
                    exact ih false ⟨some k, calls ++ [(nonce, c2)]⟩ t1 t2 t3 c h2
          | callsEnd =>
              cases inSelect <;> simp only [xcRun] at h <;>
                rcases t1 with _ | ⟨x, t1⟩ <;> simp at h


/-- Claim C7: whenever a database-locked signal is processed, the manager
clears its session `Key` (`handleSignal` on `DatabaseLocked` sets the key to
`none`); and in every run, between a processed locked signal and any later
accepted call there is an authentication success that re-established the key
— in particular, from any key-absent state no call is accepted before an
authentication success. -/
theorem keepassxc_lock_gating (inSelect : Bool) (st : XcState) (items : List XcItem) :
    handleSignal (some XcSignal.databaseLocked) st = { st with key := none } ∧
    (∀ t1 t2 t3 c, (xcRun inSelect st items).trace =
        t1 ++ XcTraceItem.signalSeen (some XcSignal.databaseLocked) ::
          (t2 ++ XcTraceItem.callAccepted c :: t3) →
      XcTraceItem.authSuccess ∈ t2) ∧
    (st.key = none → ∀ t1 c t2, (xcRun inSelect st items).trace =
        t1 ++ XcTraceItem.callAccepted c :: t2 →
      XcTraceItem.authSuccess ∈ t1) :=
  ⟨rfl, fun t1 t2 t3 c h => xcRun_lock_gate items inSelect st t1 t2 t3 c h,
    fun hk t1 c t2 h => xcRun_gate_of_key_none items inSelect st hk t1 c t2 h⟩

/-- Witness association key for C7. -/
def witXcKey : XcKey := ⟨"assoc", [1]⟩

/-- Witness calls for C7. -/
def witXcCall (n : Nat) : XcCall := ⟨"get-logins", n⟩

/-- A schedule that authenticates, accepts a call, processes a locked
signal, re-authenticates, and accepts another call. -/
def witXcItems : List XcItem :=
  [XcItem.auth (XcAuthOutcome.success witXcKey),
   XcItem.call [1] (witXcCall 1),
   XcItem.signal (some XcSignal.databaseLocked),
   XcItem.auth (XcAuthOutcome.success witXcKey),
   XcItem.call [2] (witXcCall 2),
   XcItem.callsEnd]

/-- Witness for C7 at a concrete schedule. -/
theorem keepassxc_lock_gating_witness :
    (xcRun false ⟨none, []⟩ witXcItems).trace =
      [XcTraceItem.authSuccess, XcTraceItem.callAccepted (witXcCall 1)] ++
        XcTraceItem.signalSeen (some XcSignal.databaseLocked) ::
          ([XcTraceItem.authSuccess] ++ XcTraceItem.callAccepted (witXcCall 2) :: []) ∧
    XcTraceItem.authSuccess ∈ [XcTraceItem.authSuccess] :=
  ⟨by decide, (keepassxc_lock_gating false ⟨none, []⟩ witXcItems).2.1
      [XcTraceItem.authSuccess, XcTraceItem.callAccepted (witXcCall 1)]
      [XcTraceItem.authSuccess] [] (witXcCall 2) (by decide)⟩

end Karp
